import Mathlib

/-
Verification of the scheduled rotation and pin-coordination engine.

The development shallowly embeds the core of the program:
  - the error classification by substring matching on lowercased error text
    (utils/bot_state.py and utils/message_utils.py),
  - the HH:MM slot containment test RunningState._is_time_in_range,
  - the active slot resolver RunningState._get_active_channel_info,
  - the stale item resolver find_latest_message (utils/message_utils.py),
  - the per destination publish and feature transaction
    BotContext.forward_and_pin_message (utils/bot_state.py),
  - the unpin all sweep RunningState._unpin_all_messages,
  - one tick of the schedule loop RunningState._schedule_check,
  - the restart guard RunningState._start_schedule_task,
  - the chat info cache ChatCacheService.get_chat_info
    (services/chat_cache.py).

Database tables are modeled as association lists; the pinned_messages and
last_messages tables have a primary key on their first column, so save is
replace-by-key and delete removes the key.  The messaging gateway is a
record of response functions; an error carries the error text that the
program classifies by substring search.  Async effects are modeled by
explicit state passing, and the event trace records the externally visible
gateway calls (forward, unpin, pin).
-/

set_option maxRecDepth 1000000

/-! ## String helpers: Python substring and lower casing -/

/-- Test whether the pattern list is a leading segment of the text list,
mirroring the start of a Python substring match. -/
def lStarts : List Char → List Char → Bool
  | _, [] => true
  | [], _ :: _ => false
  | c :: cs, d :: ds => c == d && lStarts cs ds

/-- Test whether the pattern occurs inside the text, mirroring the Python
expression `pattern in text`. -/
def hasSub : List Char → List Char → Bool
  | [], p => p.isEmpty
  | c :: t, p => lStarts (c :: t) p || hasSub t p

/-- Mirror of `any(phrase in str(e).lower() for phrase in phrases)`: the
error text is lowercased and each phrase is searched as a substring. -/
def lowerContainsAny (e : String) (phrases : List String) : Bool :=
  phrases.any (fun p => hasSub (e.toList.map Char.toLower) p.toList)

/-- Phrase list of the forward error handler in
BotContext.forward_and_pin_message (bot_state.py lines 391 to 395). -/
def isForwardNotFound (e : String) : Bool :=
  lowerContainsAny e ["message not found", "message to forward not found",
    "message_id_invalid"]

/-- Phrase list of the unpin error handler inside
BotContext.forward_and_pin_message (bot_state.py lines 360 to 364). -/
def isUnpinNotFound (e : String) : Bool :=
  lowerContainsAny e ["message to unpin not found", "message not found",
    "message_id_invalid"]

/-- Phrase list of the unpin error handler inside
RunningState._unpin_all_messages (bot_state.py lines 226 to 231). -/
def isUnpinAllNotFound (e : String) : Bool :=
  lowerContainsAny e ["message to unpin not found", "message not found",
    "message_id_invalid", "bad request: message to unpin not found"]

/-- Phrase list of the probe error handler in find_latest_message
(message_utils.py lines 69 to 74 and 114 to 119). -/
def isCopyNotFound (e : String) : Bool :=
  lowerContainsAny e ["message not found", "message to copy not found",
    "message_id_invalid", "message to forward not found"]

/-! ## Time of day: RunningState._is_time_in_range -/

/-- Mirror of `time_str.split(':')`: split a character list at every colon. -/
def splitColon : List Char → List (List Char)
  | [] => [[]]
  | c :: rest =>
    let r := splitColon rest
    if c == ':' then [] :: r
    else
      match r with
      | h :: t => (c :: h) :: t
      | [] => [[c]]

/-- Decimal value of a digit list, none when empty or a non digit occurs;
mirror of the Python `int` call on the pieces of an HH:MM string. -/
def digitsVal : List Char → Option Nat → Option Nat
  | [], acc => acc
  | c :: t, acc =>
    if c.isDigit then digitsVal t (some (acc.getD 0 * 10 + (c.toNat - 48)))
    else none

/-- Mirror of the inner helper time_to_minutes of _is_time_in_range
(bot_state.py lines 183 to 185): `h, m = map(int, time_str.split(':'))`
followed by `h * 60 + m`.  A parse failure raises in Python; here it
yields none, and the caller turns it into the false result that the outer
exception handler of _is_time_in_range produces. -/
def time_to_minutes (s : String) : Option Nat :=
  match splitColon s.toList with
  | [h, m] =>
    match digitsVal h none, digitsVal m none with
    | some hv, some mv => some (hv * 60 + mv)
    | _, _ => none
  | _ => none

/-- Mirror of RunningState._is_time_in_range (bot_state.py lines 180 to
199): cross midnight when end is strictly below start, otherwise the half
open interval from start to end; false when any operand fails to parse. -/
def is_time_in_range (currentTime startTime endTime : String) : Bool :=
  match time_to_minutes currentTime, time_to_minutes startTime,
    time_to_minutes endTime with
  | some c, some s, some e =>
    if e < s then decide (s ≤ c) || decide (c < e)
    else decide (s ≤ c) && decide (c < e)
  | _, _, _ => false

/-! ## Store model -/

/-- Row of the schedule table: channel and the two HH:MM bounds. -/
structure Schedule where
  channelId : String
  startTime : String
  endTime : String
  deriving Repr, DecidableEq

/-- Derived active slot information as built by
RunningState._get_active_channel_info. -/
structure SlotInfo where
  channelId : String
  slotId : String
  startTime : String
  endTime : String
  deriving Repr, DecidableEq

/-- Persistent store: target chats, the pinned_messages table, the
last_messages table and the schedule table.  The two message tables have a
primary key on the first component. -/
structure Db where
  targetChats : List Int
  pinned : List (String × Nat)
  lastMsg : List (String × Nat)
  schedules : List Schedule
  deriving Repr, DecidableEq

/-- Lookup in a keyed table, mirror of a SELECT by primary key. -/
def tblGet (t : List (String × Nat)) (k : String) : Option Nat :=
  (t.find? (fun r => r.1 == k)).map (fun r => r.2)

/-- Mirror of INSERT OR REPLACE on a table with a primary key: every row
with the key is dropped and the new row is appended. -/
def tblPut (t : List (String × Nat)) (k : String) (v : Nat) : List (String × Nat) :=
  t.filter (fun r => !(r.1 == k)) ++ [(k, v)]

/-- Mirror of DELETE by primary key. -/
def tblDel (t : List (String × Nat)) (k : String) : List (String × Nat) :=
  t.filter (fun r => !(r.1 == k))

/-- Repository.get_pinned_message for a chat id (keys are str(chat_id)). -/
def dbGetPinned (db : Db) (c : Int) : Option Nat :=
  tblGet db.pinned (toString c)

/-- Repository.save_pinned_message. -/
def dbSavePinned (db : Db) (c : Int) (m : Nat) : Db :=
  { db with pinned := tblPut db.pinned (toString c) m }

/-- Repository.delete_pinned_message. -/
def dbDelPinned (db : Db) (c : Int) : Db :=
  { db with pinned := tblDel db.pinned (toString c) }

/-- Repository.get_last_message. -/
def dbGetLast (db : Db) (ch : String) : Option Nat :=
  tblGet db.lastMsg ch

/-- Repository.save_last_message. -/
def dbSaveLast (db : Db) (ch : String) (m : Nat) : Db :=
  { db with lastMsg := tblPut db.lastMsg ch m }

/-- Number of pinned rows stored for one chat key. -/
def pinnedCount (t : List (String × Nat)) (k : String) : Nat :=
  (t.filter (fun r => r.1 == k)).length

/-- The PinnedItem invariant: at most one pinned row per chat key. -/
def pinnedInv (t : List (String × Nat)) : Prop :=
  ∀ k, pinnedCount t k ≤ 1

/-! ## Messaging gateway and event trace -/

/-- Gateway responses as functions of the call arguments.  An error value
carries the error text classified by the substring matchers above. -/
structure Gateway where
  forward : Int → String → Nat → Except String Nat
  pin : Int → Nat → Except String Unit
  unpin : Int → Nat → Except String Unit
  copyMsg : String → Nat → Except String Nat

/-- Externally visible gateway calls recorded by the embedding. -/
inductive Ev where
  | fwd (chat : Int) (msgId : Nat) (ok : Bool)
  | unpin (chat : Int) (msgId : Nat) (ok : Bool)
  | pin (chat : Int) (msgId : Nat) (ok : Bool)
  deriving Repr, DecidableEq

/-- Recognizer for forward events. -/
def isFwdEv : Ev → Bool
  | .fwd _ _ _ => true
  | _ => false

/-- Recognizer for forward events that carry a given message id. -/
def isFwdEvId (m : Nat) : Ev → Bool
  | .fwd _ m2 _ => m2 == m
  | _ => false

/-- Recognizer for pin events. -/
def isPinEv : Ev → Bool
  | .pin _ _ _ => true
  | _ => false

/-- Recognizer for unpin events. -/
def isUnpinEv : Ev → Bool
  | .unpin _ _ _ => true
  | _ => false

/-- Number of forward attempts in a trace. -/
def countFwd (tr : List Ev) : Nat := (tr.filter isFwdEv).length

/-- Number of forward attempts with a given message id in a trace. -/
def countFwdId (m : Nat) (tr : List Ev) : Nat := (tr.filter (isFwdEvId m)).length

/-- Number of pin attempts in a trace. -/
def countPin (tr : List Ev) : Nat := (tr.filter isPinEv).length

/-! ## Stale item resolver: find_latest_message -/

/-- Existence probe of one message id: copy_message into the same channel
(message_utils.py lines 49 to 80).  A successful copy means the id exists;
a not found class error and any other error are both treated as absence
for this id only, exactly as the two except branches of the source both
continue the scan. -/
def probeOk (g : Gateway) (ch : String) (i : Nat) : Bool :=
  match g.copyMsg ch i with
  | .ok _ => true
  | .error e => if isCopyNotFound e then false else false

/-- Forward scan (message_utils.py lines 40 to 80): the loop runs over
`range(start_id, start_id + 200)` and keeps overwriting valid_id on every
successful probe, hence it returns the last, that is the largest, hit. -/
def fwdScan (p : Nat → Bool) (start : Nat) : Option Nat :=
  (List.range' start 200).foldl (fun acc i => if p i then some i else acc) none

/-- Backward scan (message_utils.py lines 87 to 110): the loop runs over
`range(search_start, max(1, search_start - 200), -1)`, a descending range
that stops strictly above the stop value, and breaks at the first hit. -/
def backScan (p : Nat → Bool) (start : Nat) : Option Nat :=
  ((List.range' (max 1 (start - 200) + 1) (start - max 1 (start - 200))).reverse).find? p

/-- Search from a given start id: forward first, backward only when the
forward window had no hit. -/
def searchFrom (g : Gateway) (ch : String) (start : Nat) : Option Nat :=
  match fwdScan (probeOk g ch) start with
  | some v => some v
  | none => backScan (probeOk g ch) start

/-- Mirror of find_latest_message (message_utils.py lines 7 to 137).  The
start id is last_saved_id + 50 when a truthy last saved id exists and 1000
otherwise; the truthiness test `if last_saved_id:` makes a saved id of 0
fall back to 1000 as well. -/
def find_latest_message (g : Gateway) (ch : String) (lastSaved : Option Nat) : Option Nat :=
  match lastSaved with
  | some k => if k ≠ 0 then searchFrom g ch (k + 50) else searchFrom g ch 1000
  | none => searchFrom g ch 1000

/-! ## Publish and feature: BotContext.forward_and_pin_message -/

/-- Outcome of processing one destination chat (one iteration of the loop
in bot_state.py lines 336 to 418). -/
inductive ChatOut where
  | cont (setSucc : Bool) (db : Db) (tr : List Ev)
  | retry (newId : Nat) (db : Db) (tr : List Ev)
  | abort (db : Db) (tr : List Ev)
  deriving Repr

/-- Outcome of the whole destination loop. -/
inductive LoopOut where
  | done (succ : Bool) (db : Db) (tr : List Ev)
  | retry (newId : Nat) (db : Db) (tr : List Ev)
  | abort (db : Db) (tr : List Ev)
  deriving Repr

/-- Trace component of a chat outcome. -/
def chatTr : ChatOut → List Ev
  | .cont _ _ t => t
  | .retry _ _ t => t
  | .abort _ t => t

/-- One destination of forward_and_pin_message (bot_state.py lines 336 to
418).  The previous pinned row is read first; on a successful forward the
previous message, when present, is unpinned with both error classes
swallowed (the branches differ only in log level), then the new copy is
pinned: a pin success stores the new pinned row, a pin failure still sets
the success flag (line 386).  A forward failure of not found class runs
find_latest_message; a different truthy id is saved as the latest message
and requests a retry of the whole call (line 407), otherwise the whole
call aborts with False (lines 410 and 413); any other forward error moves
on to the next chat without touching the success flag. -/
def processChat (g : Gateway) (ch : String) (msgId : Nat) (c : Int) (db : Db) : ChatOut :=
  let prev := dbGetPinned db c
  match g.forward c ch msgId with
  | .ok fwdId =>
    let utr : List Ev :=
      match prev with
      | none => []
      | some p =>
        match g.unpin c p with
        | .ok _ => [.unpin c p true]
        | .error e =>
          if isUnpinNotFound e then [.unpin c p false] else [.unpin c p false]
    match g.pin c fwdId with
    | .ok _ => .cont true (dbSavePinned db c fwdId) (.fwd c msgId true :: utr ++ [.pin c fwdId true])
    | .error _ => .cont true db (.fwd c msgId true :: utr ++ [.pin c fwdId false])
  | .error e =>
    if isForwardNotFound e then
      match find_latest_message g ch (some msgId) with
      | some newId =>
        if newId ≠ 0 ∧ newId ≠ msgId then
          .retry newId (dbSaveLast db ch newId) [.fwd c msgId false]
        else .abort db [.fwd c msgId false]
      | none => .abort db [.fwd c msgId false]
    else .cont false db [.fwd c msgId false]

/-- The destination loop of forward_and_pin_message.  A retry or abort
outcome of one destination leaves the loop immediately, mirroring the
return statements inside the Python for loop. -/
def fapLoop (g : Gateway) (ch : String) (msgId : Nat) :
    List Int → Db → Bool → List Ev → LoopOut
  | [], db, succ, tr => .done succ db tr
  | c :: rest, db, succ, tr =>
    match processChat g ch msgId c db with
    | .cont s db2 t => fapLoop g ch msgId rest db2 (succ || s) (tr ++ t)
    | .retry n db2 t => .retry n db2 (tr ++ t)
    | .abort db2 t => .abort db2 (tr ++ t)

/-- One call body of forward_and_pin_message: empty target list returns
False at once (line 331); a retry outcome hands the corrected id to the
continuation, which models the recursive call of line 407. -/
def fapRound (g : Gateway) (ch : String) (msgId : Nat) (db : Db)
    (retryK : Nat → Db → Bool × Db × List Ev) : Bool × Db × List Ev :=
  if db.targetChats.isEmpty then (false, db, [])
  else
    match fapLoop g ch msgId db.targetChats db false [] with
    | .done s db2 tr => (s, db2, tr)
    | .abort db2 tr => (false, db2, tr)
    | .retry newId db2 tr =>
      let r := retryK newId db2
      (r.1, r.2.1, tr ++ r.2.2)

/-- Mirror of BotContext.forward_and_pin_message (bot_state.py lines 325
to 426).  The source recurses without any bound on line 407; the fuel
argument only caps the modeled recursion depth (Python would likewise stop
at its stack limit), and with exhausted fuel the embedding answers False
without further gateway calls. -/
def forward_and_pin_message (g : Gateway) (ch : String) :
    Nat → Nat → Db → Bool × Db × List Ev
  | 0, msgId, db => fapRound g ch msgId db (fun _ db2 => (false, db2, []))
  | fuel + 1, msgId, db =>
    fapRound g ch msgId db (fun newId db2 => forward_and_pin_message g ch fuel newId db2)

/-! ## Unpin all sweep: RunningState._unpin_all_messages -/

/-- One chat of the sweep (bot_state.py lines 207 to 238): when a pinned
row exists the gateway unpin runs; on success or on a not found class
error the row is deleted, on any other error the row is kept. -/
def unpinChat (g : Gateway) (db : Db) (c : Int) : Db × List Ev :=
  match dbGetPinned db c with
  | none => (db, [])
  | some p =>
    match g.unpin c p with
    | .ok _ => (dbDelPinned db c, [.unpin c p true])
    | .error e =>
      if isUnpinAllNotFound e then (dbDelPinned db c, [.unpin c p false])
      else (db, [.unpin c p false])

/-- Sweep over an explicit chat list. -/
def unpinAllGo (g : Gateway) : List Int → Db → Db × List Ev
  | [], db => (db, [])
  | c :: rest, db =>
    let r1 := unpinChat g db c
    let r2 := unpinAllGo g rest r1.1
    (r2.1, r1.2 ++ r2.2)

/-- Mirror of RunningState._unpin_all_messages (bot_state.py lines 201 to
246): the sweep walks the target chats of the store. -/
def unpinAll (g : Gateway) (db : Db) : Db × List Ev :=
  unpinAllGo g db.targetChats db

/-! ## The schedule tick: RunningState._schedule_check -/

/-- Engine private state of RunningState. -/
structure EngState where
  curActive : Option String
  curPinned : Option Nat
  lastPinTime : Option String
  processedSlots : List String
  lastCheckDate : Option Nat
  deriving Repr, DecidableEq

/-- Mirror of RunningState._get_active_channel_info (bot_state.py lines
153 to 178): first schedule row whose interval contains the current time;
the slot id is channel_id, start and end joined by underscores. -/
def getActiveChannelInfo (schedules : List Schedule) (time : String) : Option SlotInfo :=
  schedules.findSome? (fun sc =>
    if is_time_in_range time sc.startTime sc.endTime then
      some ⟨sc.channelId, sc.channelId ++ "_" ++ sc.startTime ++ "_" ++ sc.endTime,
        sc.startTime, sc.endTime⟩
    else none)

/-- Set insertion for the processed slot set. -/
def addSlot (l : List String) (sid : String) : List String :=
  if l.contains sid then l else l ++ [sid]

/-- Day rollover block of the tick (bot_state.py lines 83 to 91): when the
observed date differs from the last seen date, unpin all destinations,
clear the active channel, the pinned message, the pin time and the
processed slot set, and record the new date. -/
def dayRollover (g : Gateway) (date : Nat) (s : EngState) (db : Db) :
    EngState × Db × List Ev :=
  if s.lastCheckDate = some date then (s, db, [])
  else
    let u := unpinAll g db
    (⟨none, none, none, [], some date⟩, u.1, u.2)

/-- Slot handling block of the tick (bot_state.py lines 94 to 138).  An
unprocessed active slot first unpins everything, then reads the stored
latest message: with none the slot is only marked processed; otherwise
forward_and_pin_message runs and only on success the slot is marked
processed and the active state recorded.  A processed active slot does
nothing.  Without an active slot a previously active channel is unpinned
and the active state cleared. -/
def slotPhase (g : Gateway) (fuel : Nat) (time : String) (s : EngState) (db : Db) :
    EngState × Db × List Ev :=
  match getActiveChannelInfo db.schedules time with
  | some info =>
    if s.processedSlots.contains info.slotId then (s, db, [])
    else
      let u := unpinAll g db
      match dbGetLast u.1 info.channelId with
      | some mid =>
        let r := forward_and_pin_message g info.channelId fuel mid u.1
        if r.1 then
          let s2 : EngState :=
            ⟨some info.channelId, some mid, some time,
              addSlot s.processedSlots info.slotId, s.lastCheckDate⟩
          (s2, r.2.1, u.2 ++ r.2.2)
        else (s, r.2.1, u.2 ++ r.2.2)
      | none =>
        ({ s with processedSlots := addSlot s.processedSlots info.slotId }, u.1, u.2)
  | none =>
    if s.curActive.isSome then
      let u := unpinAll g db
      ({ s with curActive := none, curPinned := none, lastPinTime := none }, u.1, u.2)
    else (s, db, [])

/-- One iteration of the while loop of RunningState._schedule_check
(bot_state.py lines 78 to 141): day rollover first, then slot handling. -/
def tick (g : Gateway) (fuel : Nat) (date : Nat) (time : String) (s : EngState) (db : Db) :
    EngState × Db × List Ev :=
  let r1 := dayRollover g date s db
  let r2 := slotPhase g fuel time r1.1 r1.2.1
  (r2.1, r2.2.1, r1.2.2 ++ r2.2.2)

/-- States after each tick of a same day run of the loop. -/
def runList (g : Gateway) (fuel : Nat) (date : Nat) (s : EngState) (db : Db) :
    List String → List EngState
  | [] => []
  | t :: ts =>
    let r := tick g fuel date t s db
    r.1 :: runList g fuel date r.1 r.2.1 ts

/-- Number of transitions in a state list at which a slot id newly enters
the processed set. -/
def entersCount (sid : String) : EngState → List EngState → Nat
  | _, [] => 0
  | prev, s :: rest =>
    (if !(prev.processedSlots.contains sid) && s.processedSlots.contains sid then 1 else 0)
      + entersCount sid s rest

/-! ## Restart guard: RunningState._start_schedule_task -/

/-- Observable status of the asyncio task that runs _schedule_check.  By
the asyncio semantics a task is done only after its coroutine has
returned or raised, and cancelled only after a cancel request took
effect. -/
structure TaskState where
  present : Bool
  done : Bool
  cancelled : Bool
  deriving Repr, DecidableEq

/-- Guard of RunningState._start_schedule_task (bot_state.py lines 69 to
72): a new task is created only when no task exists or the existing task
is done.  The result tells whether a new task is spawned. -/
def start_schedule_task (t : TaskState) : Bool :=
  !t.present || t.done

/-- Tail of the exception handler of _schedule_check (bot_state.py lines
145 to 151): after the backoff sleep, _start_schedule_task runs unless the
task was cancelled.  The result tells whether a replacement task is
spawned before the failing coroutine finishes. -/
def restartAfterException (t : TaskState) : Bool :=
  if !t.cancelled then start_schedule_task t else false

/-! ## Chat info cache: ChatCacheService.get_chat_info -/

/-- Cache entry as built in services/chat_cache.py lines 99 to 105. -/
structure ChatInfo where
  id : Int
  title : String
  ctype : String
  memberCount : Option Nat
  lastUpdated : Nat
  deriving Repr, DecidableEq

/-- Cache configuration, Config.cache_ttl and Config.max_cache_size. -/
structure CacheCfg where
  cacheTtl : Nat
  maxCacheSize : Nat
  deriving Repr, DecidableEq

/-- Gateway calls used by get_chat_info. -/
structure ChatGateway where
  getChat : Int → Except String (Option String × String)
  getChatMemberCount : Int → Except String Nat
  getMe : Except String Int
  getChatMember : Int → Int → Except String (String × Bool)

/-- Trace of gateway calls made by one get_chat_info call. -/
inductive CEv where
  | getChat
  | getMemberCount
  | getMe
  | getChatMember
  deriving Repr, DecidableEq

/-- An observer as registered with the cache service; the call may fail. -/
def ObsFn := Int → ChatInfo → Except String Unit

/-- Mirror of ChatCacheService._notify_observers (chat_cache.py lines 50
to 57): every observer is called in order; an exception of one observer is
caught and logged, so the walk continues regardless of the outcomes.  The
result records each observer outcome. -/
def notifyObservers (obs : List ObsFn) (chatId : Int) (info : ChatInfo) : List Bool :=
  obs.map (fun o =>
    match o chatId info with
    | .ok _ => true
    | .error _ => false)

/-- Lookup in the cache dictionary. -/
def cacheGet (cache : List (Int × ChatInfo)) (k : Int) : Option ChatInfo :=
  (cache.find? (fun r => r.1 == k)).map (fun r => r.2)

/-- Python dictionary assignment: an existing key is updated in place, a
new key is appended at the end of the iteration order. -/
def cacheSet (cache : List (Int × ChatInfo)) (k : Int) (v : ChatInfo) :
    List (Int × ChatInfo) :=
  if cache.any (fun r => r.1 == k) then
    cache.map (fun r => if r.1 == k then (k, v) else r)
  else cache ++ [(k, v)]

/-- Python `del cache[k]`. -/
def cacheDel (cache : List (Int × ChatInfo)) (k : Int) : List (Int × ChatInfo) :=
  cache.filter (fun r => !(r.1 == k))

/-- Fold step of the Python min call with the last_updated key: the later
entry replaces the accumulator only on a strictly smaller key, so the
first minimum in iteration order wins. -/
def minStep (acc y : Int × ChatInfo) : Int × ChatInfo :=
  if y.2.lastUpdated < acc.2.lastUpdated then y else acc

/-- Mirror of `min(cache.items(), key=lambda x: x[1].last_updated)`. -/
def minByLU : List (Int × ChatInfo) → Option (Int × ChatInfo)
  | [] => none
  | x :: xs => some (xs.foldl minStep x)

/-- Result of one get_chat_info call: the returned info, the cache after
the call, the gateway calls made and the observer outcomes. -/
structure CacheResult where
  info : Option ChatInfo
  cache : List (Int × ChatInfo)
  calls : List CEv
  obsRes : List Bool
  deriving Repr

/-- Hit test of chat_cache.py lines 64 to 67: a cached entry younger than
the ttl is returned at once. -/
def cacheHit (cache : List (Int × ChatInfo)) (now ttl : Nat) (chatId : Int) :
    Option ChatInfo :=
  match cacheGet cache chatId with
  | some ci => if now - ci.lastUpdated < ttl then some ci else none
  | none => none

/-- Member count lookup with its isolated error handler (chat_cache.py
lines 74 to 79): an error leaves the count unknown. -/
def mcOf (g : ChatGateway) (chatId : Int) : Option Nat :=
  match g.getChatMemberCount chatId with
  | .ok n => some n
  | .error _ => none

/-- Stored title, mirroring `chat.title or f"Чат {chat_id}"`: a missing or
empty title falls back to the default. -/
def titleOf (chatId : Int) (title : Option String) : String :=
  match title with
  | some t => if t = "" then "Чат " ++ toString chatId else t
  | none => "Чат " ++ toString chatId

/-- Eviction block of get_chat_info (chat_cache.py lines 113 to 116): when
the cache holds more than max_cache_size entries, the entry with the
smallest last_updated (first such in iteration order) is deleted. -/
def evictStep (cfg : CacheCfg) (c1 : List (Int × ChatInfo)) : List (Int × ChatInfo) :=
  if cfg.maxCacheSize < c1.length then
    match minByLU c1 with
    | some old => cacheDel c1 old.1
    | none => c1
  else c1

/-- Fetch path of get_chat_info (chat_cache.py lines 69 to 122): get_chat
first (an error aborts with none and no cache change), then the member
count with an isolated error, then get_me (an error aborts), then the
bot member lookup whose result is only logged, then the entry is built
with the current timestamp and stored, the observers run, and finally the
eviction block runs. -/
def cacheFetch (g : ChatGateway) (cfg : CacheCfg) (obs : List ObsFn) (now : Nat)
    (chatId : Int) (cache : List (Int × ChatInfo)) : CacheResult :=
  match g.getChat chatId with
  | .error _ => ⟨none, cache, [.getChat], []⟩
  | .ok (title, ty) =>
    let mc : Option Nat := mcOf g chatId
    match g.getMe with
    | .error _ => ⟨none, cache, [.getChat, .getMemberCount, .getMe], []⟩
    | .ok botId =>
      let _member := g.getChatMember chatId botId
      let info : ChatInfo := ⟨chatId, titleOf chatId title, ty, mc, now⟩
      let cache1 := cacheSet cache chatId info
      let ob := notifyObservers obs chatId info
      ⟨some info, evictStep cfg cache1, [.getChat, .getMemberCount, .getMe, .getChatMember], ob⟩

/-- Mirror of ChatCacheService.get_chat_info (chat_cache.py lines 59 to
122): a fresh cached entry is answered with no gateway call and no
observer call; otherwise the fetch path runs. -/
def get_chat_info (g : ChatGateway) (cfg : CacheCfg) (obs : List ObsFn) (now : Nat)
    (chatId : Int) (cache : List (Int × ChatInfo)) : CacheResult :=
  match cacheHit cache now cfg.cacheTtl chatId with
  | some ci => ⟨some ci, cache, [], []⟩
  | none => cacheFetch g cfg obs now chatId cache

/-! ## General lemmas about the scan combinators -/

theorem foldlScan_eq (p : Nat → Bool) (l : List Nat) (a : Option Nat) :
    l.foldl (fun acc i => if p i then some i else acc) a =
      (l.reverse.find? p).or a := by
  induction l generalizing a with
  | nil => simp
  | cons x xs ih =>
    simp only [List.foldl_cons, List.reverse_cons]
    rw [ih, List.find?_append]
    cases h : xs.reverse.find? p with
    | some v => simp
    | none =>
      by_cases hx : p x <;> simp [List.find?, hx]

theorem fwdScan_eq_revFind (p : Nat → Bool) (s : Nat) :
    fwdScan p s = ((List.range' s 200).reverse).find? p := by
  unfold fwdScan
  rw [foldlScan_eq]
  exact Option.or_none

theorem revRangeFind_eq_some (p : Nat → Bool) (a n v : Nat)
    (hp : p v = true) (hlo : a ≤ v) (hhi : v < a + n)
    (hmax : ∀ w, v < w → w < a + n → p w = false) :
    ((List.range' a n).reverse).find? p = some v := by
  induction n with
  | zero => omega
  | succ m ih =>
    rw [List.range'_concat, List.reverse_append]
    simp only [List.reverse_singleton, List.singleton_append]
    by_cases hv : v = a + m
    · subst hv
      simp [List.find?, hp]
    · have hvm : v < a + m := by omega
      have hpam : p (a + m) = false := hmax (a + m) (by omega) (by omega)
      simp only [List.find?, one_mul, hpam]
      exact ih hvm (fun w hw hw2 => hmax w hw (by omega))

theorem revRangeFind_eq_none (p : Nat → Bool) (a n : Nat)
    (h : ∀ w ∈ List.range' a n, p w = false) :
    ((List.range' a n).reverse).find? p = none := by
  rw [List.find?_eq_none]
  intro x hx
  simp [h x (List.mem_reverse.mp hx)]

/-! ## Claim C3: slot containment test -/

/-- C3: for all times and slot bounds given as HH:MM strings (stated
through their parsed minute values), the containment test returns true
exactly when either the end is strictly below the start (cross midnight)
and the time is at or after the start or strictly before the end, or
start is at most end and the time lies in the half open interval. -/
theorem c3_slot_containment (t s e : String) (ct st et : Nat)
    (ht : time_to_minutes t = some ct) (hs : time_to_minutes s = some st)
    (he : time_to_minutes e = some et) :
    is_time_in_range t s e = true ↔
      (if et < st then st ≤ ct ∨ ct < et else st ≤ ct ∧ ct < et) := by
  unfold is_time_in_range
  rw [ht, hs, he]
  by_cases h : et < st <;> simp [h]

/-- C3 witness: the cross midnight slot from 22:00 to 02:00 contains 23:00
and 01:00 and does not contain 12:00. -/
theorem c3_slot_containment_witness :
    is_time_in_range "23:00" "22:00" "02:00" = true ∧
    is_time_in_range "01:00" "22:00" "02:00" = true ∧
    is_time_in_range "12:00" "22:00" "02:00" = false := by
  have h1 := c3_slot_containment "23:00" "22:00" "02:00" 1380 1320 120
    (by decide) (by decide) (by decide)
  refine ⟨h1.mpr (by decide), by decide, by decide⟩

/-! ## Claim C10: a zero length slot is never active -/

/-- C10: when the start and end strings coincide the slot containment test
is false for every time, because only a strictly smaller end is treated as
crossing midnight and the non crossing branch demands a time strictly
below the end yet at least the start. -/
theorem c10_zero_length_slot_inactive (t s : String) :
    is_time_in_range t s s = false := by
  unfold is_time_in_range
  cases ht : time_to_minutes t with
  | none => rfl
  | some ct =>
    cases hs : time_to_minutes s with
    | none => rfl
    | some st =>
      simp only [lt_irrefl, if_false]
      by_cases h : st ≤ ct <;> by_cases h2 : ct < st <;> simp [h, h2]
      omega

/-! ## Claim C8: restart behavior of the schedule task after an exception -/

/-- C8: evidence of the defect.  While the schedule coroutine is still
executing its own exception handler, the task wrapping it is present, not
done and not cancelled; the guard of _start_schedule_task is therefore
false, so no replacement task is spawned and the loop terminates once the
handler returns, contradicting the claimed restart. -/
theorem c8_no_restart_after_exception :
    restartAfterException ⟨true, false, false⟩ = false := by decide

/-! ## Claim C5: the stale item resolver -/

/-- Probe responses for the C5 counterexample: only id 800 exists. -/
def gFive : Gateway :=
  ⟨fun _ _ _ => .error ".", fun _ _ => .ok (), fun _ _ => .ok (),
    fun _ i => if i == 800 then .ok 1 else .error "."⟩

/-- Probe responses for the C5 witness: only id 160 exists. -/
def gFwdHit : Gateway :=
  ⟨fun _ _ _ => .error ".", fun _ _ => .ok (), fun _ _ => .ok (),
    fun _ i => if i == 160 then .ok 1 else .error "."⟩

/-- C5 counterexample: with no last known id the start point is 1000, and
the claim describes the backward probes as reaching down to
max(1, start - 200) = 800; the existence probe at id 800 succeeds, yet the
search returns none, because the source loop
`range(search_start, max(1, search_start - 200), -1)` stops strictly above
its stop value and never probes id 800. -/
theorem c5_resolver_counterexample :
    probeOk gFive "src" 800 = true ∧ max 1 (1000 - 200) = 800 ∧
    find_latest_message gFive "src" none = none :=
  ⟨by decide, by decide, by decide⟩

/-- C5 amended: the resolver starts at lastKnownId + 50 when a nonzero
last known id exists and at 1000 otherwise; it probes the 200 ids of the
forward window and returns the largest succeeding one; only when no
forward probe succeeds does it probe backward from the start point down
to, but excluding, max(1, start - 200), returning the first (nearest)
existing id; it returns none when neither direction finds an existing id;
and the outcome depends only on the per id success of the probes, so an
error of any class at one probe counts as absence for that id alone. -/
theorem c5_resolver_amended :
    (∀ g ch k, k ≠ 0 → find_latest_message g ch (some k) = searchFrom g ch (k + 50)) ∧
    (∀ g ch, find_latest_message g ch none = searchFrom g ch 1000) ∧
    (∀ g ch start v, probeOk g ch v = true → start ≤ v → v < start + 200 →
      (∀ w ∈ List.range' start 200, v < w → probeOk g ch w = false) →
      searchFrom g ch start = some v) ∧
    (∀ g ch start v, (∀ w ∈ List.range' start 200, probeOk g ch w = false) →
      probeOk g ch v = true → max 1 (start - 200) < v → v ≤ start →
      (∀ w ∈ List.range' (max 1 (start - 200) + 1) (start - max 1 (start - 200)),
        v < w → probeOk g ch w = false) →
      searchFrom g ch start = some v) ∧
    (∀ g ch start, (∀ w ∈ List.range' start 200, probeOk g ch w = false) →
      (∀ w ∈ List.range' (max 1 (start - 200) + 1) (start - max 1 (start - 200)),
        probeOk g ch w = false) →
      searchFrom g ch start = none) ∧
    (∀ g g2 ch last, (∀ i, probeOk g ch i = probeOk g2 ch i) →
      find_latest_message g ch last = find_latest_message g2 ch last) := by
  refine ⟨?_, ?_, ?_, ?_, ?_, ?_⟩
  · intro g ch k hk
    simp [find_latest_message, hk]
  · intro g ch
    simp [find_latest_message]
  · intro g ch start v hp hlo hhi hmax
    unfold searchFrom
    rw [fwdScan_eq_revFind, revRangeFind_eq_some (probeOk g ch) start 200 v hp hlo hhi
      (fun w hw hw2 => hmax w (List.mem_range'_1.mpr ⟨by omega, hw2⟩) hw)]
  · intro g ch start v hfwd hp hlo hhi hmax
    unfold searchFrom
    rw [fwdScan_eq_revFind, revRangeFind_eq_none (probeOk g ch) start 200 hfwd]
    unfold backScan
    exact revRangeFind_eq_some (probeOk g ch) (max 1 (start - 200) + 1)
      (start - max 1 (start - 200)) v hp (by omega) (by omega)
      (fun w hw hw2 => hmax w (List.mem_range'_1.mpr ⟨by omega, hw2⟩) hw)
  · intro g ch start hfwd hback
    unfold searchFrom
    rw [fwdScan_eq_revFind, revRangeFind_eq_none (probeOk g ch) start 200 hfwd]
    unfold backScan
    exact revRangeFind_eq_none (probeOk g ch) _ _ hback
  · intro g g2 ch last h
    have hfun : probeOk g ch = probeOk g2 ch := funext h
    cases last with
    | none => simp [find_latest_message, searchFrom, fwdScan, backScan, hfun]
    | some k =>
      by_cases hk : k = 0 <;>
        simp [find_latest_message, searchFrom, fwdScan, backScan, hfun, hk]

/-- C5 witness: probing from start 150 with a single existing id 160 in
the forward window, the largest (here only) forward hit is returned. -/
theorem c5_resolver_amended_witness :
    probeOk gFwdHit "src" 160 = true ∧ searchFrom gFwdHit "src" 150 = some 160 :=
  ⟨by decide, c5_resolver_amended.2.2.1 gFwdHit "src" 150 160 (by decide) (by decide)
    (by decide) (by decide)⟩

/-! ## Shape lemmas for the per destination transaction -/

/-- Store component of a chat outcome. -/
def chatDb : ChatOut → Db
  | .cont _ d _ => d
  | .retry _ d _ => d
  | .abort d _ => d

/-- Store component of a loop outcome. -/
def loopDb : LoopOut → Db
  | .done _ d _ => d
  | .retry _ d _ => d
  | .abort d _ => d

/-- Trace component of a loop outcome. -/
def loopTr : LoopOut → List Ev
  | .done _ _ t => t
  | .retry _ _ t => t
  | .abort _ t => t

theorem isPinEv_of_unpin (e : Ev) (h : isUnpinEv e = true) : isPinEv e = false := by
  cases e <;> simp_all [isUnpinEv, isPinEv]

theorem isFwdEv_of_unpin (e : Ev) (h : isUnpinEv e = true) : isFwdEv e = false := by
  cases e <;> simp_all [isUnpinEv, isFwdEv]

theorem processChat_fwd_ok (g : Gateway) (ch : String) (m : Nat) (c : Int) (db : Db)
    (fwdId : Nat) (hf : g.forward c ch m = .ok fwdId) :
    ∃ setdb utr pinb,
      processChat g ch m c db =
        .cont true setdb (.fwd c m true :: utr ++ [.pin c fwdId pinb]) ∧
      (∀ e ∈ utr, isUnpinEv e = true) ∧
      (setdb = db ∨ setdb = dbSavePinned db c fwdId) := by
  cases hprev : dbGetPinned db c with
  | none =>
    cases hpin : g.pin c fwdId with
    | ok u =>
      refine ⟨dbSavePinned db c fwdId, [], true, ?_, by simp, Or.inr rfl⟩
      simp [processChat, hf, hprev, hpin]
    | error e2 =>
      refine ⟨db, [], false, ?_, by simp, Or.inl rfl⟩
      simp [processChat, hf, hprev, hpin]
  | some p =>
    cases hu : g.unpin c p with
    | ok u =>
      cases hpin : g.pin c fwdId with
      | ok u2 =>
        refine ⟨dbSavePinned db c fwdId, [.unpin c p true], true, ?_, ?_, Or.inr rfl⟩
        · simp [processChat, hf, hprev, hu, hpin]
        · simp [isUnpinEv]
      | error e2 =>
        refine ⟨db, [.unpin c p true], false, ?_, ?_, Or.inl rfl⟩
        · simp [processChat, hf, hprev, hu, hpin]
        · simp [isUnpinEv]
    | error e3 =>
      cases hpin : g.pin c fwdId with
      | ok u2 =>
        refine ⟨dbSavePinned db c fwdId, [.unpin c p false], true, ?_, ?_, Or.inr rfl⟩
        · simp [processChat, hf, hprev, hu, hpin]
        · simp [isUnpinEv]
      | error e2 =>
        refine ⟨db, [.unpin c p false], false, ?_, ?_, Or.inl rfl⟩
        · simp [processChat, hf, hprev, hu, hpin]
        · simp [isUnpinEv]

theorem processChat_fwd_error (g : Gateway) (ch : String) (m : Nat) (c : Int) (db : Db)
    (e : String) (hf : g.forward c ch m = .error e) :
    (isForwardNotFound e = false ∧
      processChat g ch m c db = .cont false db [.fwd c m false]) ∨
    (isForwardNotFound e = true ∧
      ((∃ newId, find_latest_message g ch (some m) = some newId ∧ newId ≠ 0 ∧ newId ≠ m ∧
        processChat g ch m c db = .retry newId (dbSaveLast db ch newId) [.fwd c m false]) ∨
       processChat g ch m c db = .abort db [.fwd c m false])) := by
  by_cases hnf : isForwardNotFound e
  · refine Or.inr ⟨hnf, ?_⟩
    cases hres : find_latest_message g ch (some m) with
    | none =>
      refine Or.inr ?_
      simp [processChat, hf, hnf, hres]
    | some newId =>
      by_cases hcond : newId ≠ 0 ∧ newId ≠ m
      · refine Or.inl ⟨newId, rfl, hcond.1, hcond.2, ?_⟩
        simp [processChat, hf, hnf, hres, hcond]
      · refine Or.inr ?_
        simp [processChat, hf, hnf, hres, hcond]
  · refine Or.inl ⟨by simp [hnf], ?_⟩
    simp [processChat, hf, hnf]

/-! ## Preservation of the at most one pinned row invariant -/

theorem filter_key_of_filter_not_key (t : List (String × Nat)) (k : String) :
    (t.filter (fun r => !(r.1 == k))).filter (fun r => r.1 == k) = [] := by
  induction t with
  | nil => rfl
  | cons x xs ih =>
    by_cases h : x.1 == k <;> simp [List.filter_cons, h, ih]

theorem filter_key_of_filter_other (t : List (String × Nat)) (k k2 : String)
    (h : ¬ k2 = k) :
    (t.filter (fun r => !(r.1 == k))).filter (fun r => r.1 == k2) =
      t.filter (fun r => r.1 == k2) := by
  induction t with
  | nil => rfl
  | cons x xs ih =>
    by_cases h1 : x.1 == k
    · have hx : x.1 = k := eq_of_beq h1
      have h2 : (x.1 == k2) = false := by
        rw [hx]
        exact beq_false_of_ne (fun hh => h hh.symm)
      simp [List.filter_cons, h1, h2, ih]
    · by_cases h2 : x.1 == k2 <;> simp [List.filter_cons, h1, h2, ih]

theorem pinnedCount_tblPut_self (t : List (String × Nat)) (k : String) (v : Nat) :
    pinnedCount (tblPut t k v) k = 1 := by
  simp [pinnedCount, tblPut, List.filter_append, filter_key_of_filter_not_key]

theorem pinnedCount_tblPut_other (t : List (String × Nat)) (k k2 : String) (v : Nat)
    (h : ¬ k2 = k) : pinnedCount (tblPut t k v) k2 = pinnedCount t k2 := by
  have h2 : (k == k2) = false := beq_false_of_ne (fun hh => h hh.symm)
  simp [pinnedCount, tblPut, List.filter_append, filter_key_of_filter_other t k k2 h, h2]

theorem pinnedCount_tblDel_self (t : List (String × Nat)) (k : String) :
    pinnedCount (tblDel t k) k = 0 := by
  simp [pinnedCount, tblDel, filter_key_of_filter_not_key]

theorem pinnedInv_tblPut (t : List (String × Nat)) (k : String) (v : Nat)
    (h : pinnedInv t) : pinnedInv (tblPut t k v) := by
  intro k2
  by_cases hk : k2 = k
  · subst hk
    rw [pinnedCount_tblPut_self]
  · rw [pinnedCount_tblPut_other t k k2 v hk]
    exact h k2

theorem pinnedInv_tblDel (t : List (String × Nat)) (k : String)
    (h : pinnedInv t) : pinnedInv (tblDel t k) := by
  intro k2
  by_cases hk : k2 = k
  · subst hk
    rw [pinnedCount_tblDel_self]
    omega
  · have heq : pinnedCount (tblDel t k) k2 = pinnedCount t k2 := by
      unfold pinnedCount tblDel
      rw [filter_key_of_filter_other t k k2 hk]
    rw [heq]
    exact h k2

theorem processChat_inv (g : Gateway) (ch : String) (m : Nat) (c : Int) (db : Db)
    (h : pinnedInv db.pinned) :
    pinnedInv (chatDb (processChat g ch m c db)).pinned := by
  cases hf : g.forward c ch m with
  | ok fwdId =>
    obtain ⟨setdb, utr, pinb, heq, _, hdb⟩ := processChat_fwd_ok g ch m c db fwdId hf
    rw [heq]
    rcases hdb with rfl | rfl
    · exact h
    · exact pinnedInv_tblPut _ _ _ h
  | error e =>
    rcases processChat_fwd_error g ch m c db e hf with ⟨_, heq⟩ | ⟨_, hsub⟩
    · rw [heq]; exact h
    · rcases hsub with ⟨newId, _, _, _, heq⟩ | heq
      · rw [heq]
        exact h
      · rw [heq]
        exact h

theorem fapLoop_inv (g : Gateway) (ch : String) (m : Nat) (chats : List Int) :
    ∀ (db : Db) (succ : Bool) (tr : List Ev), pinnedInv db.pinned →
      pinnedInv (loopDb (fapLoop g ch m chats db succ tr)).pinned := by
  induction chats with
  | nil => intro db succ tr h; exact h
  | cons c rest ih =>
    intro db succ tr h
    have hc := processChat_inv g ch m c db h
    simp only [fapLoop]
    cases hpc : processChat g ch m c db with
    | cont s db2 t =>
      rw [hpc] at hc
      exact ih db2 (succ || s) (tr ++ t) hc
    | retry n db2 t =>
      rw [hpc] at hc
      exact hc
    | abort db2 t =>
      rw [hpc] at hc
      exact hc

theorem fapRound_inv (g : Gateway) (ch : String) (m : Nat) (db : Db)
    (rk : Nat → Db → Bool × Db × List Ev)
    (hrk : ∀ n db2, pinnedInv db2.pinned → pinnedInv (rk n db2).2.1.pinned)
    (h : pinnedInv db.pinned) : pinnedInv (fapRound g ch m db rk).2.1.pinned := by
  unfold fapRound
  split
  · exact h
  · have hl := fapLoop_inv g ch m db.targetChats db false [] h
    cases hfl : fapLoop g ch m db.targetChats db false [] with
    | done s db2 tr => rw [hfl] at hl; exact hl
    | abort db2 tr => rw [hfl] at hl; exact hl
    | retry n db2 tr =>
      rw [hfl] at hl
      exact hrk n db2 hl

theorem fap_inv (g : Gateway) (ch : String) :
    ∀ (fuel m : Nat) (db : Db), pinnedInv db.pinned →
      pinnedInv (forward_and_pin_message g ch fuel m db).2.1.pinned := by
  intro fuel
  induction fuel with
  | zero =>
    intro m db h
    exact fapRound_inv g ch m db _ (fun n db2 h2 => h2) h
  | succ f ih =>
    intro m db h
    exact fapRound_inv g ch m db _ (fun n db2 h2 => ih n db2 h2) h

theorem unpinChat_inv (g : Gateway) (db : Db) (c : Int)
    (h : pinnedInv db.pinned) : pinnedInv (unpinChat g db c).1.pinned := by
  cases hp : dbGetPinned db c with
  | none =>
    simp only [unpinChat, hp]
    exact h
  | some p =>
    cases hu : g.unpin c p with
    | ok u =>
      simp only [unpinChat, hp, hu, dbDelPinned]
      exact pinnedInv_tblDel _ _ h
    | error e =>
      by_cases hcl : isUnpinAllNotFound e
      · simp only [unpinChat, hp, hu, hcl, if_true, dbDelPinned]
        exact pinnedInv_tblDel _ _ h
      · simp only [unpinChat, hp, hu, hcl, if_false]
        exact h

theorem unpinAllGo_inv (g : Gateway) (chats : List Int) :
    ∀ (db : Db), pinnedInv db.pinned → pinnedInv (unpinAllGo g chats db).1.pinned := by
  induction chats with
  | nil => intro db h; exact h
  | cons c rest ih =>
    intro db h
    simp only [unpinAllGo]
    exact ih _ (unpinChat_inv g db c h)

/-! ## Claim C1: at most one pinned row per destination -/

/-- C1: the publish and feature transaction and the unpin all sweep both
preserve the invariant of at most one pinned row per chat; the atomic
writes themselves keep it at every intermediate state, a save leaving
exactly one row for the written chat and a delete leaving zero (the
transient empty state); and within one destination transaction every
unpin event comes strictly before every pin event in the trace. -/
theorem c1_at_most_one_pinned :
    (∀ (g : Gateway) (ch : String) (fuel m : Nat) (db : Db), pinnedInv db.pinned →
      pinnedInv (forward_and_pin_message g ch fuel m db).2.1.pinned) ∧
    (∀ (g : Gateway) (chats : List Int) (db : Db), pinnedInv db.pinned →
      pinnedInv (unpinAllGo g chats db).1.pinned) ∧
    (∀ (t : List (String × Nat)) (k : String) (v : Nat), pinnedInv t →
      pinnedInv (tblPut t k v) ∧ pinnedCount (tblPut t k v) k = 1) ∧
    (∀ (t : List (String × Nat)) (k : String), pinnedInv t →
      pinnedInv (tblDel t k) ∧ pinnedCount (tblDel t k) k = 0) ∧
    (∀ (g : Gateway) (ch : String) (m : Nat) (c : Int) (db : Db),
      ∃ l1 l2, chatTr (processChat g ch m c db) = l1 ++ l2 ∧
        (∀ e ∈ l1, isPinEv e = false) ∧ (∀ e ∈ l2, isUnpinEv e = false)) := by
  refine ⟨fun g ch fuel m db h => fap_inv g ch fuel m db h,
    fun g chats db h => unpinAllGo_inv g chats db h,
    fun t k v h => ⟨pinnedInv_tblPut t k v h, pinnedCount_tblPut_self t k v⟩,
    fun t k h => ⟨pinnedInv_tblDel t k h, pinnedCount_tblDel_self t k⟩,
    fun g ch m c db => ?_⟩
  cases hf : g.forward c ch m with
  | ok fwdId =>
    obtain ⟨setdb, utr, pinb, heq, hutr, _⟩ := processChat_fwd_ok g ch m c db fwdId hf
    refine ⟨.fwd c m true :: utr, [.pin c fwdId pinb], by simp [heq, chatTr], ?_, ?_⟩
    · intro e he
      rcases List.mem_cons.mp he with rfl | he2
      · rfl
      · exact isPinEv_of_unpin e (hutr e he2)
    · intro e he
      rcases List.mem_singleton.mp he with rfl
      rfl
  | error e =>
    have htr : chatTr (processChat g ch m c db) = [.fwd c m false] := by
      rcases processChat_fwd_error g ch m c db e hf with ⟨_, heq⟩ | ⟨_, hsub⟩
      · simp [heq, chatTr]
      · rcases hsub with ⟨newId, _, _, _, heq⟩ | heq <;> simp [heq, chatTr]
    refine ⟨[.fwd c m false], [], by simp [htr], ?_, by simp⟩
    intro e2 he2
    rcases List.mem_singleton.mp he2 with rfl
    rfl

/-- C1 witness: a store satisfying the invariant still satisfies it after
one publish and feature call. -/
theorem c1_at_most_one_pinned_witness :
    pinnedInv ([] : List (String × Nat)) ∧
    pinnedInv (forward_and_pin_message gFwdHit "src" 1 5 ⟨[1], [], [], []⟩).2.1.pinned := by
  have h0 : pinnedInv ([] : List (String × Nat)) := by
    intro k
    simp [pinnedCount]
  exact ⟨h0, c1_at_most_one_pinned.1 gFwdHit "src" 1 5 ⟨[1], [], [], []⟩ h0⟩

/-! ## Claim C7: pin failure still counts the destination as a success -/

/-- Success recognizer for a gateway forward response. -/
def exOk : Except String Nat → Bool
  | .ok _ => true
  | .error _ => false

theorem isFwdEvId_of_unpin (m : Nat) (e : Ev) (h : isUnpinEv e = true) :
    isFwdEvId m e = false := by
  cases e <;> simp_all [isUnpinEv, isFwdEvId]

theorem countPin_append (a b : List Ev) :
    countPin (a ++ b) = countPin a + countPin b := by
  simp [countPin, List.filter_append]

theorem countFwd_append (a b : List Ev) :
    countFwd (a ++ b) = countFwd a + countFwd b := by
  simp [countFwd, List.filter_append]

theorem countFwdId_append (m : Nat) (a b : List Ev) :
    countFwdId m (a ++ b) = countFwdId m a + countFwdId m b := by
  simp [countFwdId, List.filter_append]

theorem countPin_unpinEvs (l : List Ev) (h : ∀ e ∈ l, isUnpinEv e = true) :
    countPin l = 0 := by
  simp only [countPin, List.length_eq_zero, List.filter_eq_nil_iff]
  intro e he
  simp [isPinEv_of_unpin e (h e he)]

theorem countFwd_unpinEvs (l : List Ev) (h : ∀ e ∈ l, isUnpinEv e = true) :
    countFwd l = 0 := by
  simp only [countFwd, List.length_eq_zero, List.filter_eq_nil_iff]
  intro e he
  simp [isFwdEv_of_unpin e (h e he)]

theorem processChat_pin_error (g : Gateway) (ch : String) (m : Nat) (c : Int) (db : Db)
    (fwdId : Nat) (e2 : String)
    (hf : g.forward c ch m = .ok fwdId) (hpin : g.pin c fwdId = .error e2) :
    ∃ utr, processChat g ch m c db =
      .cont true db (.fwd c m true :: utr ++ [.pin c fwdId false]) := by
  cases hprev : dbGetPinned db c with
  | none => exact ⟨[], by simp [processChat, hf, hprev, hpin]⟩
  | some p =>
    cases hu : g.unpin c p with
    | ok u => exact ⟨[.unpin c p true], by simp [processChat, hf, hprev, hu, hpin]⟩
    | error e3 => exact ⟨[.unpin c p false], by simp [processChat, hf, hprev, hu, hpin]⟩

theorem fapLoop_all_fwd_ok (g : Gateway) (ch : String) (m : Nat) (chats : List Int) :
    ∀ (db : Db) (succ : Bool) (tr : List Ev),
      (∀ c ∈ chats, exOk (g.forward c ch m) = true) →
      ∃ db2 tr2,
        fapLoop g ch m chats db succ tr = .done (succ || !chats.isEmpty) db2 (tr ++ tr2) ∧
        countPin tr2 = chats.length ∧ countFwd tr2 = chats.length := by
  induction chats with
  | nil =>
    intro db succ tr h
    exact ⟨db, [], by simp [fapLoop], by simp [countPin], by simp [countFwd]⟩
  | cons c rest ih =>
    intro db succ tr h
    have hc : exOk (g.forward c ch m) = true := h c (by simp)
    obtain ⟨fwdId, hf⟩ : ∃ fwdId, g.forward c ch m = .ok fwdId := by
      cases hfc : g.forward c ch m with
      | ok v => exact ⟨v, rfl⟩
      | error e => rw [hfc] at hc; simp [exOk] at hc
    obtain ⟨setdb, utr, pinb, heq, hutr, _⟩ := processChat_fwd_ok g ch m c db fwdId hf
    obtain ⟨db2, tr2, hloop, hcp, hcf⟩ :=
      ih setdb (succ || true) (tr ++ (.fwd c m true :: utr ++ [.pin c fwdId pinb]))
        (fun c2 hc2 => h c2 (by simp [hc2]))
    refine ⟨db2, (.fwd c m true :: utr ++ [.pin c fwdId pinb]) ++ tr2, ?_, ?_, ?_⟩
    · simp only [fapLoop, heq]
      rw [hloop]
      simp [List.append_assoc]
    · rw [countPin_append]
      have h1 : countPin (.fwd c m true :: utr ++ [.pin c fwdId pinb]) = 1 := by
        show countPin ([Ev.fwd c m true] ++ (utr ++ [Ev.pin c fwdId pinb])) = 1
        rw [countPin_append, countPin_append, countPin_unpinEvs utr hutr]
        simp [countPin, isPinEv]
      simp only [List.length_cons]
      omega
    · rw [countFwd_append]
      have h1 : countFwd (.fwd c m true :: utr ++ [.pin c fwdId pinb]) = 1 := by
        show countFwd ([Ev.fwd c m true] ++ (utr ++ [Ev.pin c fwdId pinb])) = 1
        rw [countFwd_append, countFwd_append, countFwd_unpinEvs utr hutr]
        simp [countFwd, isFwdEv, isPinEv]
      simp only [List.length_cons]
      omega

/-- C7: when every forward succeeds, the overall publish and feature call
returns true regardless of the pin outcomes (so even when the pin fails on
every destination), exactly one pin attempt is made per destination (so a
failed pin is never retried), and a destination whose pin raises is still
reported as a success with no store write. -/
theorem c7_pin_failure_still_success (g : Gateway) (ch : String) (m fuel : Nat) (db : Db)
    (hne : db.targetChats.isEmpty = false)
    (hfwd : ∀ c ∈ db.targetChats, exOk (g.forward c ch m) = true) :
    (forward_and_pin_message g ch fuel m db).1 = true ∧
    countPin (forward_and_pin_message g ch fuel m db).2.2 = db.targetChats.length ∧
    (∀ (c : Int) (fwdId : Nat) (e2 : String),
      g.forward c ch m = .ok fwdId → g.pin c fwdId = .error e2 →
      ∃ utr, processChat g ch m c db =
        .cont true db (.fwd c m true :: utr ++ [.pin c fwdId false])) := by
  obtain ⟨db2, tr2, heq, hcp, _⟩ := fapLoop_all_fwd_ok g ch m db.targetChats db false [] hfwd
  have hflag : (false || !db.targetChats.isEmpty) = true := by simp [hne]
  rw [hflag] at heq
  have hmain : (∀ fl, (forward_and_pin_message g ch fl m db).1 = true ∧
      countPin (forward_and_pin_message g ch fl m db).2.2 = db.targetChats.length) := by
    intro fl
    cases fl with
    | zero =>
      simp only [forward_and_pin_message, fapRound, hne, Bool.false_eq_true, if_false, heq]
      simpa using hcp
    | succ f =>
      simp only [forward_and_pin_message, fapRound, hne, Bool.false_eq_true, if_false, heq]
      simpa using hcp
  exact ⟨(hmain fuel).1, (hmain fuel).2,
    fun c fwdId e2 hf hpin => processChat_pin_error g ch m c db fwdId e2 hf hpin⟩

/-- Gateway for the C7 witness: forwards always succeed, pins always fail. -/
def gPinFail : Gateway :=
  ⟨fun _ _ _ => .ok 77, fun _ _ => .error "not enough rights to pin a message",
    fun _ _ => .ok (), fun _ _ => .error "."⟩

/-- Store for the C7 witness: two destination chats. -/
def dbPinFail : Db := ⟨[1, 2], [], [], []⟩

/-- C7 witness: with two destinations whose pins both fail, the call still
reports overall success and makes exactly one pin attempt per chat. -/
theorem c7_pin_failure_still_success_witness :
    dbPinFail.targetChats.isEmpty = false ∧
    (forward_and_pin_message gPinFail "src" 0 5 dbPinFail).1 = true ∧
    countPin (forward_and_pin_message gPinFail "src" 0 5 dbPinFail).2.2 = 2 := by
  have h := c7_pin_failure_still_success gPinFail "src" 5 0 dbPinFail (by decide) (by decide)
  exact ⟨by decide, h.1, h.2.1.trans (by decide)⟩

/-! ## Claim C4: the stale item retry -/

theorem countFwdId_unpinEvs (m : Nat) (l : List Ev) (h : ∀ e ∈ l, isUnpinEv e = true) :
    countFwdId m l = 0 := by
  simp only [countFwdId, List.length_eq_zero, List.filter_eq_nil_iff]
  intro e he
  simp [isFwdEvId_of_unpin m e (h e he)]

theorem counts_ok_trace (c : Int) (m fwdId : Nat) (pinb : Bool) (utr : List Ev)
    (hutr : ∀ e ∈ utr, isUnpinEv e = true) :
    countFwd (.fwd c m true :: utr ++ [.pin c fwdId pinb]) = 1 ∧
    countFwdId m (.fwd c m true :: utr ++ [.pin c fwdId pinb]) = 1 ∧
    (∀ m2, ¬ m2 = m → countFwdId m2 (.fwd c m true :: utr ++ [.pin c fwdId pinb]) = 0) := by
  refine ⟨?_, ?_, fun m2 hm2 => ?_⟩
  · show countFwd ([Ev.fwd c m true] ++ (utr ++ [Ev.pin c fwdId pinb])) = 1
    rw [countFwd_append, countFwd_append, countFwd_unpinEvs utr hutr]
    simp [countFwd, isFwdEv]
  · show countFwdId m ([Ev.fwd c m true] ++ (utr ++ [Ev.pin c fwdId pinb])) = 1
    rw [countFwdId_append, countFwdId_append, countFwdId_unpinEvs m utr hutr]
    simp [countFwdId, isFwdEvId]
  · show countFwdId m2 ([Ev.fwd c m true] ++ (utr ++ [Ev.pin c fwdId pinb])) = 0
    rw [countFwdId_append, countFwdId_append, countFwdId_unpinEvs m2 utr hutr]
    have hb : (m == m2) = false := beq_false_of_ne (fun hh => hm2 hh.symm)
    simp [countFwdId, isFwdEvId, hb]

theorem counts_err_trace (c : Int) (m : Nat) :
    countFwd [Ev.fwd c m false] = 1 ∧ countFwdId m [Ev.fwd c m false] = 1 ∧
    (∀ m2, ¬ m2 = m → countFwdId m2 [Ev.fwd c m false] = 0) := by
  refine ⟨by simp [countFwd, isFwdEv], by simp [countFwdId, isFwdEvId], fun m2 hm2 => ?_⟩
  have hb : (m == m2) = false := beq_false_of_ne (fun hh => hm2 hh.symm)
  simp [countFwdId, isFwdEvId, hb]

/-- Gateway of the C4 counterexample: every forward fails with a not found
error, and the probes report ids 300 and 400 as existing, so the resolver
finds 300 from a last known id of 100 and then 400 from 300. -/
def gStale : Gateway :=
  ⟨fun _ _ _ => .error "message not found", fun _ _ => .ok (), fun _ _ => .ok (),
    fun _ i => if i == 300 || i == 400 then .ok 1 else .error "."⟩

/-- Store of the C4 counterexample: one destination chat. -/
def dbStale : Db := ⟨[1], [], [("src", 100)], []⟩

/-- Gateway of the second C4 scenario: the forward of id 100 fails with a
not found error, any other forward succeeds, and the probes report only id
160, so the resolver corrects 100 to 160 and every retried forward
succeeds. -/
def gStaleOnce : Gateway :=
  ⟨fun _ _ m => if m == 100 then .error "message not found" else .ok 77,
    fun _ _ => .ok (), fun _ _ => .ok (),
    fun _ i => if i == 160 then .ok 1 else .error "."⟩

/-- Store with one destination chat for the stale retry scenarios. -/
def dbStaleOnce : Db := ⟨[1], [], [("src", 100)], []⟩

/-- Store with two destination chats for the stale retry scenarios. -/
def dbStaleTwo : Db := ⟨[1, 2], [], [("src", 100)], []⟩

/-- C4 counterexample, two independent refutations.  First, with one
destination and every forward failing not found, the call starting from
the stale id 100 makes three forward attempts with three distinct ids
(100, 300, 400), because the retried forward fails the same way and the
resolver finds yet another id: the recursion is not bounded to a single
retry.  Second, with two destinations and a benign retry (every forward of
the corrected id 160 succeeds), the recursion restarts the whole loop, so
the corrected id is forwarded once per destination: three forward attempts
in total, two of them with the corrected id, refuting the global counts
of at most one corrected attempt and never a third attempt. -/
theorem c4_single_retry_counterexample :
    gStale.forward 1 "src" 100 = .error "message not found" ∧
    isForwardNotFound "message not found" = true ∧
    find_latest_message gStale "src" (some 100) = some 300 ∧
    find_latest_message gStale "src" (some 300) = some 400 ∧
    countFwd (forward_and_pin_message gStale "src" 2 100 dbStale).2.2 = 3 ∧
    countFwdId 100 (forward_and_pin_message gStale "src" 2 100 dbStale).2.2 = 1 ∧
    countFwdId 300 (forward_and_pin_message gStale "src" 2 100 dbStale).2.2 = 1 ∧
    countFwdId 400 (forward_and_pin_message gStale "src" 2 100 dbStale).2.2 = 1 ∧
    find_latest_message gStaleOnce "src" (some 100) = some 160 ∧
    countFwd (forward_and_pin_message gStaleOnce "src" 1 100 dbStaleTwo).2.2 = 3 ∧
    countFwdId 100 (forward_and_pin_message gStaleOnce "src" 1 100 dbStaleTwo).2.2 = 1 ∧
    countFwdId 160 (forward_and_pin_message gStaleOnce "src" 1 100 dbStaleTwo).2.2 = 2 ∧
    (forward_and_pin_message gStaleOnce "src" 1 100 dbStaleTwo).1 = true :=
  ⟨rfl, by decide, by decide, by decide, by decide, by decide, by decide, by decide,
    by decide, by decide, by decide, by decide, by decide⟩

theorem processChat_counts (g : Gateway) (ch : String) (m : Nat) (c : Int) (db : Db) :
    countFwdId m (chatTr (processChat g ch m c db)) = 1 ∧
    (∀ m2, ¬ m2 = m → countFwdId m2 (chatTr (processChat g ch m c db)) = 0) := by
  cases hf : g.forward c ch m with
  | ok fwdId =>
    obtain ⟨setdb, utr, pinb, heq, hutr, _⟩ := processChat_fwd_ok g ch m c db fwdId hf
    rw [heq]
    simp only [chatTr]
    exact ⟨(counts_ok_trace c m fwdId pinb utr hutr).2.1,
      fun m2 hm2 => (counts_ok_trace c m fwdId pinb utr hutr).2.2 m2 hm2⟩
  | error e =>
    have htr : chatTr (processChat g ch m c db) = [.fwd c m false] := by
      rcases processChat_fwd_error g ch m c db e hf with ⟨_, heq⟩ | ⟨_, hsub⟩
      · simp [heq, chatTr]
      · rcases hsub with ⟨newId, _, _, _, heq⟩ | heq <;> simp [heq, chatTr]
    rw [htr]
    exact ⟨(counts_err_trace c m).2.1, fun m2 hm2 => (counts_err_trace c m).2.2 m2 hm2⟩

theorem processChat_keeps_chats (g : Gateway) (ch : String) (m : Nat) (c : Int) (db : Db) :
    (chatDb (processChat g ch m c db)).targetChats = db.targetChats := by
  cases hf : g.forward c ch m with
  | ok fwdId =>
    obtain ⟨setdb, utr, pinb, heq, _, hdb⟩ := processChat_fwd_ok g ch m c db fwdId hf
    rw [heq]
    simp only [chatDb]
    rcases hdb with rfl | rfl
    · rfl
    · simp [dbSavePinned]
  | error e =>
    rcases processChat_fwd_error g ch m c db e hf with ⟨_, heq⟩ | ⟨_, hsub⟩
    · rw [heq]
      rfl
    · rcases hsub with ⟨newId, _, _, _, heq⟩ | heq
      · rw [heq]
        simp [chatDb, dbSaveLast]
      · rw [heq]
        rfl

theorem fapLoop_keeps_chats (g : Gateway) (ch : String) (m : Nat) (chats : List Int) :
    ∀ (db : Db) (succ : Bool) (tr : List Ev),
      (loopDb (fapLoop g ch m chats db succ tr)).targetChats = db.targetChats := by
  induction chats with
  | nil => intro db succ tr; rfl
  | cons c rest ih =>
    intro db succ tr
    have hc := processChat_keeps_chats g ch m c db
    simp only [fapLoop]
    cases hpc : processChat g ch m c db with
    | cont s2 db2 t =>
      rw [hpc] at hc
      simp only [chatDb] at hc
      dsimp only
      rw [ih db2 (succ || s2) (tr ++ t)]
      exact hc
    | retry n db2 t =>
      rw [hpc] at hc
      simpa [chatDb, loopDb] using hc
    | abort db2 t =>
      rw [hpc] at hc
      simpa [chatDb, loopDb] using hc

theorem fapLoop_no_notfound (g : Gateway) (ch : String) (m : Nat) (chats : List Int) :
    ∀ (db : Db) (succ : Bool) (tr : List Ev),
      (∀ c ∈ chats, ∀ e2, g.forward c ch m = .error e2 → isForwardNotFound e2 = false) →
      ∃ s2 db2 tr2, fapLoop g ch m chats db succ tr = .done s2 db2 (tr ++ tr2) ∧
        countFwdId m tr2 = chats.length ∧
        (∀ m2, ¬ m2 = m → countFwdId m2 tr2 = 0) := by
  induction chats with
  | nil =>
    intro db succ tr h
    exact ⟨succ, db, [], by simp [fapLoop], rfl, fun m2 _ => rfl⟩
  | cons c rest ih =>
    intro db succ tr h
    have hcont : ∃ s2 db2 t, processChat g ch m c db = .cont s2 db2 t ∧
        countFwdId m t = 1 ∧ (∀ m2, ¬ m2 = m → countFwdId m2 t = 0) := by
      cases hf : g.forward c ch m with
      | ok fwdId =>
        obtain ⟨setdb, utr, pinb, heq, hutr, _⟩ := processChat_fwd_ok g ch m c db fwdId hf
        exact ⟨true, setdb, _, heq, (counts_ok_trace c m fwdId pinb utr hutr).2.1,
          fun m2 hm2 => (counts_ok_trace c m fwdId pinb utr hutr).2.2 m2 hm2⟩
      | error e =>
        have hnf := h c (by simp) e hf
        have heq : processChat g ch m c db = .cont false db [.fwd c m false] := by
          simp [processChat, hf, hnf]
        exact ⟨false, db, _, heq, (counts_err_trace c m).2.1,
          fun m2 hm2 => (counts_err_trace c m).2.2 m2 hm2⟩
    obtain ⟨s2, db2, t, hpc, hct, hct2⟩ := hcont
    obtain ⟨s3, db3, tr2, hloop, hc1, hc2⟩ :=
      ih db2 (succ || s2) (tr ++ t) (fun c2 hmem e2 he => h c2 (by simp [hmem]) e2 he)
    refine ⟨s3, db3, t ++ tr2, ?_, ?_, ?_⟩
    · simp only [fapLoop, hpc]
      rw [hloop, List.append_assoc]
    · rw [countFwdId_append, hct, hc1]
      simp only [List.length_cons]
      omega
    · intro m2 hm2
      rw [countFwdId_append, hct2 m2 hm2, hc2 m2 hm2]

theorem fapLoop_round1 (g : Gateway) (ch : String) (badId goodId : Nat)
    (hres : find_latest_message g ch (some badId) = some goodId)
    (hg0 : ¬ goodId = 0) (hne : ¬ goodId = badId) (chats : List Int) :
    ∀ (db : Db) (succ : Bool) (tr : List Ev),
      (∃ s2 db2 tr1, fapLoop g ch badId chats db succ tr = .done s2 db2 (tr ++ tr1) ∧
        countFwdId badId tr1 ≤ chats.length ∧
        (∀ m2, ¬ m2 = badId → countFwdId m2 tr1 = 0) ∧
        (chats ≠ [] → 1 ≤ countFwdId badId tr1)) ∨
      (∃ db2 tr1, fapLoop g ch badId chats db succ tr = .retry goodId db2 (tr ++ tr1) ∧
        countFwdId badId tr1 ≤ chats.length ∧
        (∀ m2, ¬ m2 = badId → countFwdId m2 tr1 = 0) ∧
        1 ≤ countFwdId badId tr1) := by
  induction chats with
  | nil =>
    intro db succ tr
    exact Or.inl ⟨succ, db, [], by simp [fapLoop], by simp [countFwdId], fun m2 _ => rfl,
      fun h => absurd rfl h⟩
  | cons c rest ih =>
    intro db succ tr
    cases hstep : processChat g ch badId c db with
    | cont s2 db2 t =>
      have hcnt := processChat_counts g ch badId c db
      rw [hstep] at hcnt
      simp only [chatTr] at hcnt
      rcases ih db2 (succ || s2) (tr ++ t) with
        ⟨s3, db3, tr1, hloop, hb, ho, _⟩ | ⟨db3, tr1, hloop, hb, ho, hpos⟩
      · refine Or.inl ⟨s3, db3, t ++ tr1, ?_, ?_, ?_, fun _ => ?_⟩
        · simp only [fapLoop, hstep]
          rw [hloop, List.append_assoc]
        · rw [countFwdId_append, hcnt.1]
          simp only [List.length_cons]
          omega
        · intro m2 hm2
          rw [countFwdId_append, hcnt.2 m2 hm2, ho m2 hm2]
        · rw [countFwdId_append, hcnt.1]
          omega
      · refine Or.inr ⟨db3, t ++ tr1, ?_, ?_, ?_, ?_⟩
        · simp only [fapLoop, hstep]
          rw [hloop, List.append_assoc]
        · rw [countFwdId_append, hcnt.1]
          simp only [List.length_cons]
          omega
        · intro m2 hm2
          rw [countFwdId_append, hcnt.2 m2 hm2, ho m2 hm2]
        · rw [countFwdId_append, hcnt.1]
          omega
    | retry n2 db2 t =>
      have heq : processChat g ch badId c db =
          .retry goodId (dbSaveLast db ch goodId) [.fwd c badId false] := by
        cases hf : g.forward c ch badId with
        | ok fwdId =>
          obtain ⟨_, _, _, heq2, _, _⟩ := processChat_fwd_ok g ch badId c db fwdId hf
          rw [hstep] at heq2
          exact ChatOut.noConfusion heq2
        | error e =>
          by_cases hnf : isForwardNotFound e
          · simp [processChat, hf, hnf, hres, hg0, hne]
          · have heq2 : processChat g ch badId c db = .cont false db [.fwd c badId false] := by
              simp [processChat, hf, hnf]
            rw [hstep] at heq2
            exact ChatOut.noConfusion heq2
      refine Or.inr ⟨dbSaveLast db ch goodId, [.fwd c badId false], ?_, ?_, ?_, ?_⟩
      · simp only [fapLoop, heq]
      · have h4 := (counts_err_trace c badId).2.1
        simp only [List.length_cons]
        omega
      · exact fun m2 hm2 => (counts_err_trace c badId).2.2 m2 hm2
      · have h4 := (counts_err_trace c badId).2.1
        omega
    | abort db2 t =>
      exfalso
      cases hf : g.forward c ch badId with
      | ok fwdId =>
        obtain ⟨_, _, _, heq2, _, _⟩ := processChat_fwd_ok g ch badId c db fwdId hf
        rw [hstep] at heq2
        exact ChatOut.noConfusion heq2
      | error e =>
        by_cases hnf : isForwardNotFound e
        · have heq2 : processChat g ch badId c db =
              .retry goodId (dbSaveLast db ch goodId) [.fwd c badId false] := by
            simp [processChat, hf, hnf, hres, hg0, hne]
          rw [hstep] at heq2
          exact ChatOut.noConfusion heq2
        · have heq2 : processChat g ch badId c db = .cont false db [.fwd c badId false] := by
            simp [processChat, hf, hnf]
          rw [hstep] at heq2
          exact ChatOut.noConfusion heq2

/-- C4 amended: for every destination list, when the resolver corrects the
stale id to a different nonzero id and the gateway answer to every retried
forward is not itself a not found class failure, the call forwards only
the stale id and the corrected id (no third id is ever attempted), each of
the two at most once per destination: the number of forward attempts with
the stale id and with the corrected id are each bounded by the number of
destinations, and the stale id is attempted at least once when any
destination exists.  The recursion restarts the whole destination loop, so
with several destinations the corrected id is forwarded once per
destination, and a genuinely third id is attempted when a retried forward
again fails with a not found class error, as the counterexample shows. -/
theorem c4_single_retry_amended (g : Gateway) (ch : String) (badId goodId fuel : Nat)
    (db : Db)
    (hres : find_latest_message g ch (some badId) = some goodId)
    (hg0 : ¬ goodId = 0) (hne : ¬ goodId = badId)
    (hretry : ∀ c ∈ db.targetChats, ∀ e2, g.forward c ch goodId = .error e2 →
      isForwardNotFound e2 = false) :
    countFwdId badId (forward_and_pin_message g ch (fuel + 1) badId db).2.2 ≤
      db.targetChats.length ∧
    countFwdId goodId (forward_and_pin_message g ch (fuel + 1) badId db).2.2 ≤
      db.targetChats.length ∧
    (∀ m2, ¬ m2 = badId → ¬ m2 = goodId →
      countFwdId m2 (forward_and_pin_message g ch (fuel + 1) badId db).2.2 = 0) ∧
    (db.targetChats ≠ [] →
      1 ≤ countFwdId badId (forward_and_pin_message g ch (fuel + 1) badId db).2.2) := by
  cases hch : db.targetChats with
  | nil =>
    simp only [forward_and_pin_message, fapRound, hch, List.isEmpty_nil, if_true]
    exact ⟨by simp [countFwdId], by simp [countFwdId], fun m2 _ _ => rfl,
      fun hni => absurd rfl hni⟩
  | cons c rest =>
    rcases fapLoop_round1 g ch badId goodId hres hg0 hne (c :: rest) db false [] with
      ⟨s2, db2, tr1, hloop, hb, ho, hpos⟩ | ⟨db2, tr1, hloop, hb, ho, hpos⟩
    · simp only [forward_and_pin_message, fapRound, hch, List.isEmpty_cons,
        Bool.false_eq_true, if_false, hloop]
      simp only [List.nil_append]
      exact ⟨hb, by rw [ho goodId hne]; omega, fun m2 hm2 _ => ho m2 hm2,
        fun _ => hpos (by simp)⟩
    · have hk := fapLoop_keeps_chats g ch badId (c :: rest) db false []
      rw [hloop] at hk
      simp only [loopDb] at hk
      have hch2 : db2.targetChats = c :: rest := by rw [hk, hch]
      obtain ⟨s3, db3, tr2, hl2, hc1, hc2⟩ :=
        fapLoop_no_notfound g ch goodId (c :: rest) db2 false []
          (fun c2 hmem e2 he => hretry c2 (by rw [hch]; exact hmem) e2 he)
      have hround2 : ∀ rk, (fapRound g ch goodId db2 rk).2.2 = [] ++ tr2 := by
        intro rk
        simp only [fapRound, hch2, List.isEmpty_cons, Bool.false_eq_true, if_false]
        rw [hl2]
      have hr2 : (forward_and_pin_message g ch fuel goodId db2).2.2 = [] ++ tr2 := by
        cases fuel with
        | zero =>
          simp only [forward_and_pin_message]
          exact hround2 _
        | succ f =>
          simp only [forward_and_pin_message]
          exact hround2 _
      have hmain : (forward_and_pin_message g ch (fuel + 1) badId db).2.2 =
          ([] ++ tr1) ++ ([] ++ tr2) := by
        simp only [forward_and_pin_message, fapRound, hch, List.isEmpty_cons,
          Bool.false_eq_true, if_false, hloop]
        rw [hr2]
      rw [hmain]
      simp only [List.nil_append]
      have hbg : ¬ (badId : Nat) = goodId := fun hh => hne hh.symm
      refine ⟨?_, ?_, ?_, fun _ => ?_⟩
      · rw [countFwdId_append, hc2 badId hbg]
        omega
      · rw [countFwdId_append, ho goodId hne, hc1]
        omega
      · intro m2 hm2 hm3
        rw [countFwdId_append, ho m2 hm2, hc2 m2 hm3]
      · rw [countFwdId_append, hc2 badId hbg]
        omega

/-- C4 witness: two destinations, a stale forward of id 100 corrected to
160 with every retried forward succeeding: the stale id is attempted (at
least once, at most once per destination), the corrected id at most once
per destination, and no other id at all. -/
theorem c4_single_retry_amended_witness :
    find_latest_message gStaleOnce "src" (some 100) = some 160 ∧
    countFwdId 100 (forward_and_pin_message gStaleOnce "src" 1 100 dbStaleTwo).2.2 ≤
      dbStaleTwo.targetChats.length ∧
    countFwdId 160 (forward_and_pin_message gStaleOnce "src" 1 100 dbStaleTwo).2.2 ≤
      dbStaleTwo.targetChats.length ∧
    countFwdId 999 (forward_and_pin_message gStaleOnce "src" 1 100 dbStaleTwo).2.2 = 0 ∧
    1 ≤ countFwdId 100 (forward_and_pin_message gStaleOnce "src" 1 100 dbStaleTwo).2.2 := by
  have h := c4_single_retry_amended gStaleOnce "src" 100 160 0 dbStaleTwo
    (by decide) (by decide) (by decide)
    (fun c hc e2 he => by simp [gStaleOnce] at he)
  exact ⟨by decide, h.1, h.2.1, h.2.2.1 999 (by decide) (by decide),
    h.2.2.2 (by decide)⟩

/-! ## Claim C2: at most one processed activation per slot per day -/

theorem mem_addSlot_of (l : List String) (sid x : String) (h : x ∈ l) :
    x ∈ addSlot l sid := by
  unfold addSlot
  split
  · exact h
  · simp [h]

theorem tick_same_date_keeps (g : Gateway) (fuel date : Nat) (time : String)
    (s : EngState) (db : Db) (hd : s.lastCheckDate = some date) :
    (tick g fuel date time s db).1.lastCheckDate = some date ∧
    (∀ x, x ∈ s.processedSlots → x ∈ (tick g fuel date time s db).1.processedSlots) := by
  cases ha : getActiveChannelInfo db.schedules time with
  | some info =>
    by_cases hp : info.slotId ∈ s.processedSlots
    · simp [tick, dayRollover, slotPhase, hd, ha, hp]
    · cases hl : dbGetLast (unpinAll g db).1 info.channelId with
      | some mid =>
        by_cases hs : (forward_and_pin_message g info.channelId fuel mid (unpinAll g db).1).1 = true
        · refine ⟨?_, fun x hx => ?_⟩
          · simp [tick, dayRollover, slotPhase, hd, ha, hp, hl, hs]
          · have h2 := mem_addSlot_of s.processedSlots info.slotId x hx
            simp [tick, dayRollover, slotPhase, hd, ha, hp, hl, hs, h2]
        · simp [tick, dayRollover, slotPhase, hd, ha, hp, hl, hs]
      | none =>
        refine ⟨?_, fun x hx => ?_⟩
        · simp [tick, dayRollover, slotPhase, hd, ha, hp, hl]
        · have h2 := mem_addSlot_of s.processedSlots info.slotId x hx
          simp [tick, dayRollover, slotPhase, hd, ha, hp, hl, h2]
  | none =>
    by_cases hc : s.curActive.isSome <;> simp [tick, dayRollover, slotPhase, hd, ha, hc]

theorem tick_processed_noop (g : Gateway) (fuel date : Nat) (time : String)
    (s : EngState) (db : Db) (info : SlotInfo)
    (hd : s.lastCheckDate = some date)
    (ha : getActiveChannelInfo db.schedules time = some info)
    (hp : info.slotId ∈ s.processedSlots) :
    tick g fuel date time s db = (s, db, []) := by
  simp [tick, dayRollover, slotPhase, hd, ha, hp]

theorem entersCount_of_mem (g : Gateway) (fuel date : Nat) (sid : String) :
    ∀ (times : List String) (s : EngState) (db : Db), s.lastCheckDate = some date →
      sid ∈ s.processedSlots →
      entersCount sid s (runList g fuel date s db times) = 0 := by
  intro times
  induction times with
  | nil => intro s db hd hc; rfl
  | cons t ts ih =>
    intro s db hd hc
    have hk := tick_same_date_keeps g fuel date t s db hd
    have hrest := ih _ (tick g fuel date t s db).2.1 hk.1 (hk.2 sid hc)
    simp only [runList, entersCount]
    simp [hrest, hc]

/-- Gateway of the C2 counterexample: every forward fails with an error
that is not of the not found class, so each publish attempt fails without
entering the stale path. -/
def gFailFwd : Gateway :=
  ⟨fun _ _ _ => .error ".", fun _ _ => .ok (), fun _ _ => .ok (),
    fun _ _ => .error "."⟩

/-- Store of the C2 counterexample: one destination, one schedule slot
from 10:00 to 12:00, one stored message. -/
def dbSlot : Db := ⟨[1], [], [("ch", 5)], [⟨"ch", "10:00", "12:00"⟩]⟩

/-- Engine state of the C2 counterexample: the date is already recorded
and no slot is processed. -/
def sSlot : EngState := ⟨none, none, none, [], some 7⟩

/-- C2 counterexample: on one calendar day (date 7) two consecutive ticks
at 10:30 and 10:31 both trigger the publish transaction of the same slot
(one forward attempt each), because the first attempt failed and a failed
slot is not put into the processed set. -/
theorem c2_at_most_once_counterexample :
    countFwd (tick gFailFwd 1 7 "10:30" sSlot dbSlot).2.2 = 1 ∧
    countFwd (tick gFailFwd 1 7 "10:31" (tick gFailFwd 1 7 "10:30" sSlot dbSlot).1
      (tick gFailFwd 1 7 "10:30" sSlot dbSlot).2.1).2.2 = 1 ∧
    (getActiveChannelInfo dbSlot.schedules "10:30").map SlotInfo.slotId =
      some "ch_10:00_12:00" ∧
    (getActiveChannelInfo (tick gFailFwd 1 7 "10:30" sSlot dbSlot).2.1.schedules
      "10:31").map SlotInfo.slotId = some "ch_10:00_12:00" :=
  ⟨by decide, by decide, by decide, by decide⟩

/-- C2 amended: once a slot id is in the processed set, a tick whose
active slot it is performs no gateway call at all and changes nothing (a
continuation is a no-op); and over any same day run of ticks a slot id
newly enters the processed set at most once, so at most one activation per
day is marked processed (a failed publish leaves the slot unprocessed and
is attempted again on later ticks, as the counterexample shows). -/
theorem c2_processed_slot_amended (g : Gateway) (fuel date : Nat) (sid : String) :
    (∀ (s : EngState) (db : Db) (time : String) (info : SlotInfo),
      s.lastCheckDate = some date →
      getActiveChannelInfo db.schedules time = some info →
      info.slotId ∈ s.processedSlots →
      tick g fuel date time s db = (s, db, [])) ∧
    (∀ (times : List String) (s : EngState) (db : Db),
      s.lastCheckDate = some date →
      entersCount sid s (runList g fuel date s db times) ≤ 1) := by
  constructor
  · intro s db time info hd ha hp
    exact tick_processed_noop g fuel date time s db info hd ha hp
  · intro times
    induction times with
    | nil => intro s db hd; simp [runList, entersCount]
    | cons t ts ih =>
      intro s db hd
      have hk := tick_same_date_keeps g fuel date t s db hd
      simp only [runList, entersCount]
      by_cases hc : sid ∈ s.processedSlots
      · rw [entersCount_of_mem g fuel date sid ts _ _ hk.1 (hk.2 sid hc)]
        simp [hc]
      · by_cases hc2 : sid ∈ (tick g fuel date t s db).1.processedSlots
        · rw [entersCount_of_mem g fuel date sid ts _ _ hk.1 hc2]
          split <;> omega
        · have hrest := ih (tick g fuel date t s db).1 (tick g fuel date t s db).2.1 hk.1
          have hind : (if (!s.processedSlots.contains sid &&
              (tick g fuel date t s db).1.processedSlots.contains sid) = true
              then 1 else 0) = 0 := by
            simp [hc2]
          omega

/-- Engine state of the C2 witness: the slot of dbSlot is already in the
processed set on date 7. -/
def sSlotDone : EngState := ⟨none, none, none, ["ch_10:00_12:00"], some 7⟩

/-- C2 witness: a tick on the same day whose active slot is already
processed is a no-op. -/
theorem c2_processed_slot_amended_witness :
    "ch_10:00_12:00" ∈ sSlotDone.processedSlots ∧
    tick gFailFwd 1 7 "10:30" sSlotDone dbSlot = (sSlotDone, dbSlot, []) := by
  refine ⟨by decide, ?_⟩
  exact (c2_processed_slot_amended gFailFwd 1 7 "x").1 sSlotDone dbSlot "10:30"
    ⟨"ch", "ch_10:00_12:00", "10:00", "12:00"⟩ (by decide) (by decide) (by decide)

/-! ## Claim C6: day rollover -/

theorem unpinChat_keeps (g : Gateway) (db : Db) (c : Int) :
    (unpinChat g db c).1.targetChats = db.targetChats ∧
    (unpinChat g db c).1.lastMsg = db.lastMsg ∧
    (unpinChat g db c).1.schedules = db.schedules := by
  cases hp : dbGetPinned db c with
  | none => simp [unpinChat, hp]
  | some p =>
    cases hu : g.unpin c p with
    | ok u => simp [unpinChat, hp, hu, dbDelPinned]
    | error e =>
      by_cases hcl : isUnpinAllNotFound e <;> simp [unpinChat, hp, hu, hcl, dbDelPinned]

theorem unpinAllGo_keeps (g : Gateway) (chats : List Int) :
    ∀ db : Db, (unpinAllGo g chats db).1.targetChats = db.targetChats ∧
      (unpinAllGo g chats db).1.lastMsg = db.lastMsg ∧
      (unpinAllGo g chats db).1.schedules = db.schedules := by
  induction chats with
  | nil => intro db; exact ⟨rfl, rfl, rfl⟩
  | cons c rest ih =>
    intro db
    have h1 := unpinChat_keeps g db c
    have h2 := ih (unpinChat g db c).1
    simp only [unpinAllGo]
    exact ⟨h2.1.trans h1.1, h2.2.1.trans h1.2.1, h2.2.2.trans h1.2.2⟩

theorem unpinAll_keeps (g : Gateway) (db : Db) :
    (unpinAll g db).1.targetChats = db.targetChats ∧
    (unpinAll g db).1.lastMsg = db.lastMsg ∧
    (unpinAll g db).1.schedules = db.schedules :=
  unpinAllGo_keeps g db.targetChats db

theorem unpinChat_clears_key (g : Gateway) (db : Db) (c : Int)
    (hunpin : ∀ p e, g.unpin c p = .error e → isUnpinAllNotFound e = true) :
    ∀ r ∈ (unpinChat g db c).1.pinned, r ∈ db.pinned ∧ ¬ r.1 = toString c := by
  intro r hr
  cases hp : dbGetPinned db c with
  | none =>
    rw [unpinChat, hp] at hr
    refine ⟨hr, ?_⟩
    have hfind : db.pinned.find? (fun r2 => r2.1 == toString c) = none := by
      have := hp
      unfold dbGetPinned tblGet at this
      exact Option.map_eq_none'.mp this
    have := List.find?_eq_none.mp hfind r hr
    simpa using this
  | some p =>
    have hdel : (unpinChat g db c).1.pinned = tblDel db.pinned (toString c) := by
      cases hu : g.unpin c p with
      | ok u => simp [unpinChat, hp, hu, dbDelPinned]
      | error e =>
        have := hunpin p e hu
        simp [unpinChat, hp, hu, this, dbDelPinned]
    rw [hdel] at hr
    unfold tblDel at hr
    have := List.mem_filter.mp hr
    refine ⟨this.1, ?_⟩
    simpa using this.2

theorem unpinAllGo_clears (g : Gateway)
    (hunpin : ∀ (c : Int) (p : Nat) (e : String),
      g.unpin c p = .error e → isUnpinAllNotFound e = true) :
    ∀ (chats : List Int) (db : Db),
      (∀ r ∈ db.pinned, ∃ c, c ∈ chats ∧ r.1 = toString c) →
      (unpinAllGo g chats db).1.pinned = [] := by
  intro chats
  induction chats with
  | nil =>
    intro db hcover
    have hnil : db.pinned = [] := by
      cases hdb : db.pinned with
      | nil => rfl
      | cons r rest =>
        obtain ⟨c, hc, _⟩ := hcover r (by rw [hdb]; simp)
        simp at hc
    simpa [unpinAllGo] using hnil
  | cons c rest ih =>
    intro db hcover
    simp only [unpinAllGo]
    apply ih
    intro r hr
    have h1 := unpinChat_clears_key g db c (fun p e he => hunpin c p e he) r hr
    obtain ⟨c2, hc2, hk⟩ := hcover r h1.1
    rcases List.mem_cons.mp hc2 with rfl | hmem
    · exact absurd hk h1.2
    · exact ⟨c2, hmem, hk⟩

theorem chatTr_countFwd_pos (g : Gateway) (ch : String) (m : Nat) (c : Int) (db : Db) :
    1 ≤ countFwd (chatTr (processChat g ch m c db)) := by
  cases hf : g.forward c ch m with
  | ok fwdId =>
    obtain ⟨setdb, utr, pinb, heq, hutr, _⟩ := processChat_fwd_ok g ch m c db fwdId hf
    rw [heq]
    have h1 := (counts_ok_trace c m fwdId pinb utr hutr).1
    simp only [chatTr]
    omega
  | error e =>
    have htr : chatTr (processChat g ch m c db) = [.fwd c m false] := by
      rcases processChat_fwd_error g ch m c db e hf with ⟨_, heq⟩ | ⟨_, hsub⟩
      · simp [heq, chatTr]
      · rcases hsub with ⟨newId, _, _, _, heq⟩ | heq <;> simp [heq, chatTr]
    rw [htr]
    simp [countFwd, isFwdEv]

theorem fapLoop_tr_mono (g : Gateway) (ch : String) (m : Nat) (chats : List Int) :
    ∀ (db : Db) (succ : Bool) (tr : List Ev),
      countFwd tr ≤ countFwd (loopTr (fapLoop g ch m chats db succ tr)) := by
  induction chats with
  | nil => intro db succ tr; simp [fapLoop, loopTr]
  | cons c rest ih =>
    intro db succ tr
    simp only [fapLoop]
    cases hpc : processChat g ch m c db with
    | cont s2 db2 t =>
      dsimp only
      have h1 := ih db2 (succ || s2) (tr ++ t)
      have h2 : countFwd (tr ++ t) = countFwd tr + countFwd t := countFwd_append tr t
      omega
    | retry n db2 t =>
      dsimp only [loopTr]
      rw [countFwd_append]
      omega
    | abort db2 t =>
      dsimp only [loopTr]
      rw [countFwd_append]
      omega

theorem fapLoop_countFwd_pos (g : Gateway) (ch : String) (m : Nat) (c : Int)
    (rest : List Int) (db : Db) (succ : Bool) (tr : List Ev) :
    countFwd tr + 1 ≤ countFwd (loopTr (fapLoop g ch m (c :: rest) db succ tr)) := by
  have hchat := chatTr_countFwd_pos g ch m c db
  simp only [fapLoop]
  cases hpc : processChat g ch m c db with
  | cont s2 db2 t =>
    rw [hpc] at hchat
    simp only [chatTr] at hchat
    dsimp only
    have h1 := fapLoop_tr_mono g ch m rest db2 (succ || s2) (tr ++ t)
    have h2 : countFwd (tr ++ t) = countFwd tr + countFwd t := countFwd_append tr t
    omega
  | retry n db2 t =>
    rw [hpc] at hchat
    simp only [chatTr] at hchat
    dsimp only [loopTr]
    rw [countFwd_append]
    omega
  | abort db2 t =>
    rw [hpc] at hchat
    simp only [chatTr] at hchat
    dsimp only [loopTr]
    rw [countFwd_append]
    omega

theorem fapRound_countFwd_pos (g : Gateway) (ch : String) (m : Nat) (db : Db)
    (rk : Nat → Db → Bool × Db × List Ev) (c : Int) (rest : List Int)
    (hch : db.targetChats = c :: rest) :
    1 ≤ countFwd (fapRound g ch m db rk).2.2 := by
  have hl := fapLoop_countFwd_pos g ch m c rest db false []
  have h0 : countFwd ([] : List Ev) = 0 := rfl
  unfold fapRound
  rw [hch]
  simp only [List.isEmpty_cons, Bool.false_eq_true, if_false]
  cases hfl : fapLoop g ch m (c :: rest) db false [] with
  | done s2 db2 tr =>
    rw [hfl] at hl
    dsimp only [loopTr] at hl
    dsimp only
    omega
  | abort db2 tr =>
    rw [hfl] at hl
    dsimp only [loopTr] at hl
    dsimp only
    omega
  | retry n db2 tr =>
    rw [hfl] at hl
    dsimp only [loopTr] at hl
    dsimp only
    rw [countFwd_append]
    omega

theorem fap_countFwd_pos (g : Gateway) (ch : String) (fuel m : Nat) (db : Db)
    (c : Int) (rest : List Int) (hch : db.targetChats = c :: rest) :
    1 ≤ countFwd (forward_and_pin_message g ch fuel m db).2.2 := by
  cases fuel with
  | zero =>
    simp only [forward_and_pin_message]
    exact fapRound_countFwd_pos g ch m db _ c rest hch
  | succ f =>
    simp only [forward_and_pin_message]
    exact fapRound_countFwd_pos g ch m db _ c rest hch

/-- C6: on a tick of a new calendar day the rollover block runs before any
slot resolution: it unpins every destination and (with the gateway
answering each unpin with success or a not found class error, and every
pinned row belonging to a current destination) leaves zero pinned rows,
clears the current active channel, the current pinned message and the pin
time, empties the processed slot set and records the new date; therefore a
slot that was already processed the previous day fires again: the tick
attempts at least one forward whenever a slot is active now and its source
has a stored message, regardless of the old processed set. -/
theorem c6_day_rollover (g : Gateway) (fuel date : Nat) (time : String)
    (s : EngState) (db : Db)
    (hnew : ¬ s.lastCheckDate = some date)
    (hunpin : ∀ (c : Int) (p : Nat) (e : String),
      g.unpin c p = .error e → isUnpinAllNotFound e = true)
    (hcover : ∀ r ∈ db.pinned, ∃ c, c ∈ db.targetChats ∧ r.1 = toString c) :
    (dayRollover g date s db).2.1.pinned = [] ∧
    (dayRollover g date s db).1 = ⟨none, none, none, [], some date⟩ ∧
    (∀ (info : SlotInfo) (mid : Nat) (c : Int) (rest : List Int),
      getActiveChannelInfo db.schedules time = some info →
      dbGetLast db info.channelId = some mid →
      db.targetChats = c :: rest →
      1 ≤ countFwd (tick g fuel date time s db).2.2) := by
  have hroll : dayRollover g date s db =
      (⟨none, none, none, [], some date⟩, (unpinAll g db).1, (unpinAll g db).2) := by
    simp [dayRollover, hnew]
  have hclear : (unpinAll g db).1.pinned = [] :=
    unpinAllGo_clears g hunpin db.targetChats db hcover
  refine ⟨by rw [hroll]; exact hclear, by rw [hroll], ?_⟩
  intro info mid c rest ha hl hch
  have hu1 := unpinAll_keeps g db
  have hu2 := unpinAll_keeps g (unpinAll g db).1
  have ha1 : getActiveChannelInfo (unpinAll g db).1.schedules time = some info := by
    rw [hu1.2.2]
    exact ha
  have hl2 : dbGetLast (unpinAll g (unpinAll g db).1).1 info.channelId = some mid := by
    unfold dbGetLast at hl ⊢
    rw [hu2.2.1, hu1.2.1]
    exact hl
  have hch2 : (unpinAll g (unpinAll g db).1).1.targetChats = c :: rest := by
    rw [hu2.1, hu1.1, hch]
  have hpos := fap_countFwd_pos g info.channelId fuel mid
    (unpinAll g (unpinAll g db).1).1 c rest hch2
  have htick : (tick g fuel date time s db).2.2 =
      (unpinAll g db).2 ++
        (slotPhase g fuel time ⟨none, none, none, [], some date⟩ (unpinAll g db).1).2.2 := by
    simp only [tick, hroll]
  have hsp : (slotPhase g fuel time ⟨none, none, none, [], some date⟩
        (unpinAll g db).1).2.2 =
      (unpinAll g (unpinAll g db).1).2 ++
        (forward_and_pin_message g info.channelId fuel mid
          (unpinAll g (unpinAll g db).1).1).2.2 := by
    simp only [slotPhase, ha1, List.contains_nil, Bool.false_eq_true, if_false, hl2]
    split <;> rfl
  rw [htick, hsp, countFwd_append, countFwd_append]
  omega

/-- Engine state of the C6 witness: the slot of dbSlot was processed on
the previous day, date 6. -/
def sSlotPrev : EngState := ⟨some "ch", some 5, some "10:15", ["ch_10:00_12:00"], some 6⟩

/-- C6 witness: on the first tick of date 7 the rollover leaves zero
pinned rows and a fresh state, and the slot that had fired on date 6 is
attempted again (at least one forward in the tick trace). -/
theorem c6_day_rollover_witness :
    ¬ sSlotPrev.lastCheckDate = some 7 ∧
    (dayRollover gFailFwd 7 sSlotPrev dbSlot).2.1.pinned = [] ∧
    (dayRollover gFailFwd 7 sSlotPrev dbSlot).1 = ⟨none, none, none, [], some 7⟩ ∧
    1 ≤ countFwd (tick gFailFwd 1 7 "10:30" sSlotPrev dbSlot).2.2 := by
  have h := c6_day_rollover gFailFwd 1 7 "10:30" sSlotPrev dbSlot (by decide)
    (fun c p e he => by simp [gFailFwd] at he)
    (fun r hr => by simp [dbSlot] at hr)
  exact ⟨by decide, h.1, h.2.1, h.2.2 ⟨"ch", "ch_10:00_12:00", "10:00", "12:00"⟩ 5 1 []
    (by decide) (by decide) (by decide)⟩

/-! ## Claim C9: the chat info cache -/

/-- Keys of the cache in iteration order. -/
def cacheKeys (cache : List (Int × ChatInfo)) : List Int := cache.map (fun r => r.1)

theorem foldl_minStep_mem (x : Int × ChatInfo) (xs : List (Int × ChatInfo)) :
    xs.foldl minStep x ∈ x :: xs := by
  induction xs generalizing x with
  | nil => simp
  | cons y ys ih =>
    simp only [List.foldl_cons]
    have h1 := ih (minStep x y)
    have h2 : minStep x y = x ∨ minStep x y = y := by
      unfold minStep
      split <;> simp
    rcases List.mem_cons.mp h1 with heq | hm
    · rw [heq]
      rcases h2 with h3 | h3 <;> rw [h3] <;> simp
    · simp [hm]

theorem foldl_minStep_le (x : Int × ChatInfo) (xs : List (Int × ChatInfo)) :
    ∀ y ∈ x :: xs, (xs.foldl minStep x).2.lastUpdated ≤ y.2.lastUpdated := by
  induction xs generalizing x with
  | nil =>
    intro y hy
    rcases List.mem_cons.mp hy with rfl | h
    · simp
    · simp at h
  | cons z zs ih =>
    intro y hy
    simp only [List.foldl_cons]
    have hx : (minStep x z).2.lastUpdated ≤ x.2.lastUpdated := by
      unfold minStep
      split <;> omega
    have hz : (minStep x z).2.lastUpdated ≤ z.2.lastUpdated := by
      unfold minStep
      split <;> omega
    have hmin := ih (minStep x z)
    have hself := hmin (minStep x z) (by simp)
    rcases List.mem_cons.mp hy with rfl | hy2
    · exact le_trans hself hx
    · rcases List.mem_cons.mp hy2 with rfl | hy3
      · exact le_trans hself hz
      · exact hmin y (by simp [hy3])

theorem minByLU_spec (cache : List (Int × ChatInfo)) (old : Int × ChatInfo)
    (h : minByLU cache = some old) :
    old ∈ cache ∧ ∀ y ∈ cache, old.2.lastUpdated ≤ y.2.lastUpdated := by
  cases cache with
  | nil => simp [minByLU] at h
  | cons x xs =>
    simp only [minByLU, Option.some_inj] at h
    rw [← h]
    exact ⟨foldl_minStep_mem x xs, foldl_minStep_le x xs⟩

theorem cacheKeys_update (cache : List (Int × ChatInfo)) (k : Int) (v : ChatInfo) :
    cacheKeys (cache.map (fun r => if r.1 == k then (k, v) else r)) = cacheKeys cache := by
  induction cache with
  | nil => rfl
  | cons r rs ih =>
    by_cases hr : r.1 == k
    · have h2 : r.1 = k := eq_of_beq hr
      simp only [cacheKeys, List.map_cons, hr, if_true] at ih ⊢
      rw [ih]
      simp [h2]
    · simp only [cacheKeys, List.map_cons, hr, Bool.false_eq_true, if_false] at ih ⊢
      rw [ih]

theorem nodup_cacheKeys_cacheSet (cache : List (Int × ChatInfo)) (k : Int) (v : ChatInfo)
    (h : (cacheKeys cache).Nodup) : (cacheKeys (cacheSet cache k v)).Nodup := by
  unfold cacheSet
  split
  · rw [cacheKeys_update]
    exact h
  · rename_i hany
    have hk : k ∉ cacheKeys cache := by
      intro hmem
      obtain ⟨r, hr, hrk⟩ := List.mem_map.mp hmem
      apply hany
      refine List.any_eq_true.mpr ⟨r, hr, ?_⟩
      simp [hrk]
    have hkeys : cacheKeys (cache ++ [(k, v)]) = cacheKeys cache ++ [k] := by
      simp [cacheKeys]
    rw [hkeys]
    refine List.Nodup.append h (List.nodup_singleton k) ?_
    intro a ha hb
    simp only [List.mem_singleton] at hb
    subst hb
    exact hk ha

theorem cacheDel_length (cache : List (Int × ChatInfo)) (k : Int) (x : ChatInfo)
    (hmem : (k, x) ∈ cache) (hnd : (cacheKeys cache).Nodup) :
    (cacheDel cache k).length = cache.length - 1 := by
  induction cache with
  | nil => simp at hmem
  | cons r rs ih =>
    have hnd2 := List.nodup_cons.mp (by simpa only [cacheKeys, List.map_cons] using hnd)
    rcases List.mem_cons.mp hmem with heq | hm
    · have hr : r = (k, x) := heq.symm
      subst hr
      have hfil : rs.filter (fun r2 => !(r2.1 == k)) = rs := by
        apply List.filter_eq_self.mpr
        intro a ha
        have hne : ¬ a.1 = k := by
          intro hh
          exact hnd2.1 (by
            rw [← hh]
            exact List.mem_map.mpr ⟨a, ha, rfl⟩)
        simp [hne]
      unfold cacheDel
      simp [List.filter_cons, hfil]
    · have hrk : ¬ r.1 = k := by
        intro hh
        apply hnd2.1
        rw [hh]
        exact List.mem_map.mpr ⟨(k, x), hm, rfl⟩
      have ihh := ih hm hnd2.2
      have hlen : 1 ≤ rs.length := List.length_pos.mpr (List.ne_nil_of_mem hm)
      have hb : (r.1 == k) = false := beq_false_of_ne hrk
      unfold cacheDel at ihh ⊢
      simp only [List.filter_cons, hb, Bool.not_false, if_true, List.length_cons]
      omega

theorem minByLU_isSome (c1 : List (Int × ChatInfo)) (h : c1 ≠ []) :
    ∃ old, minByLU c1 = some old := by
  cases c1 with
  | nil => exact absurd rfl h
  | cons a as => exact ⟨_, rfl⟩

theorem evictStep_spec (cfg : CacheCfg) (c1 : List (Int × ChatInfo)) :
    (c1.length ≤ cfg.maxCacheSize → evictStep cfg c1 = c1) ∧
    (cfg.maxCacheSize < c1.length →
      ∃ old, old ∈ c1 ∧ (∀ y ∈ c1, old.2.lastUpdated ≤ y.2.lastUpdated) ∧
        evictStep cfg c1 = cacheDel c1 old.1 ∧
        ((cacheKeys c1).Nodup → (evictStep cfg c1).length = c1.length - 1)) := by
  constructor
  · intro hle
    unfold evictStep
    rw [if_neg (by omega)]
  · intro hgt
    have hne : c1 ≠ [] := by
      intro h
      rw [h] at hgt
      simp at hgt
    obtain ⟨old, hold⟩ := minByLU_isSome c1 hne
    obtain ⟨hmem, hmin⟩ := minByLU_spec c1 old hold
    have hev : evictStep cfg c1 = cacheDel c1 old.1 := by
      unfold evictStep
      rw [if_pos hgt, hold]
    refine ⟨old, hmem, hmin, hev, fun hnd => ?_⟩
    rw [hev]
    exact cacheDel_length c1 old.1 old.2 hmem hnd

/-- C9: a get within the ttl of the previous fetch answers from the cache
with zero gateway calls and no observer call; on a miss whose fetches
succeed, the fresh entry carries the current timestamp, every registered
observer is notified exactly once (an observer failure shortens nothing),
the returned info and the final cache are the same for every observer
list, and the eviction step removes exactly one entry with the smallest
last_updated exactly when the cache after the store exceeds the maximum
size. -/
theorem c9_cache_hit_miss_evict (g : ChatGateway) (cfg : CacheCfg) (obs : List ObsFn)
    (now : Nat) (chatId : Int) (cache : List (Int × ChatInfo)) :
    (∀ ci, cacheGet cache chatId = some ci → now - ci.lastUpdated < cfg.cacheTtl →
      get_chat_info g cfg obs now chatId cache = ⟨some ci, cache, [], []⟩) ∧
    (∀ (title : Option String) (ty : String) (botId : Int),
      cacheHit cache now cfg.cacheTtl chatId = none →
      g.getChat chatId = .ok (title, ty) → g.getMe = .ok botId →
      ∃ info : ChatInfo, info.id = chatId ∧ info.lastUpdated = now ∧
        (get_chat_info g cfg obs now chatId cache).info = some info ∧
        (get_chat_info g cfg obs now chatId cache).calls =
          [.getChat, .getMemberCount, .getMe, .getChatMember] ∧
        (get_chat_info g cfg obs now chatId cache).obsRes.length = obs.length ∧
        (∀ obs2 : List ObsFn,
          (get_chat_info g cfg obs2 now chatId cache).info =
            (get_chat_info g cfg obs now chatId cache).info ∧
          (get_chat_info g cfg obs2 now chatId cache).cache =
            (get_chat_info g cfg obs now chatId cache).cache) ∧
        ((cacheSet cache chatId info).length ≤ cfg.maxCacheSize →
          (get_chat_info g cfg obs now chatId cache).cache = cacheSet cache chatId info) ∧
        (cfg.maxCacheSize < (cacheSet cache chatId info).length →
          ∃ old, old ∈ cacheSet cache chatId info ∧
            (∀ y ∈ cacheSet cache chatId info, old.2.lastUpdated ≤ y.2.lastUpdated) ∧
            (get_chat_info g cfg obs now chatId cache).cache =
              cacheDel (cacheSet cache chatId info) old.1 ∧
            ((cacheKeys cache).Nodup →
              (get_chat_info g cfg obs now chatId cache).cache.length =
                (cacheSet cache chatId info).length - 1))) := by
  constructor
  · intro ci hget hfresh
    simp [get_chat_info, cacheHit, hget, hfresh]
  · intro title ty botId hmiss hchat hme
    have hres : ∀ os : List ObsFn,
        get_chat_info g cfg os now chatId cache = cacheFetch g cfg os now chatId cache := by
      intro os
      simp [get_chat_info, hmiss]
    have hfetch : ∀ os : List ObsFn, cacheFetch g cfg os now chatId cache =
        ⟨some ⟨chatId, titleOf chatId title, ty, mcOf g chatId, now⟩,
          evictStep cfg
            (cacheSet cache chatId ⟨chatId, titleOf chatId title, ty, mcOf g chatId, now⟩),
          [.getChat, .getMemberCount, .getMe, .getChatMember],
          notifyObservers os chatId
            ⟨chatId, titleOf chatId title, ty, mcOf g chatId, now⟩⟩ := by
      intro os
      simp [cacheFetch, hchat, hme]
    have hspec := evictStep_spec cfg
      (cacheSet cache chatId ⟨chatId, titleOf chatId title, ty, mcOf g chatId, now⟩)
    refine ⟨⟨chatId, titleOf chatId title, ty, mcOf g chatId, now⟩, rfl, rfl, ?_, ?_, ?_,
      ?_, ?_, ?_⟩
    · rw [hres obs, hfetch obs]
    · rw [hres obs, hfetch obs]
    · rw [hres obs, hfetch obs]
      simp [notifyObservers]
    · intro obs2
      rw [hres obs, hfetch obs, hres obs2, hfetch obs2]
      exact ⟨rfl, rfl⟩
    · intro hle
      rw [hres obs, hfetch obs]
      exact hspec.1 hle
    · intro hgt
      obtain ⟨old, hmem, hmin, hev, hlen⟩ := hspec.2 hgt
      refine ⟨old, hmem, hmin, ?_, fun hnd => ?_⟩
      · rw [hres obs, hfetch obs]
        exact hev
      · rw [hres obs, hfetch obs]
        exact hlen (nodup_cacheKeys_cacheSet cache chatId _ hnd)

/-- Gateway of the C9 witness: every fetch fails, which the hit path never
consults. -/
def gCacheW : ChatGateway :=
  ⟨fun _ => .error ".", fun _ => .error ".", .ok 10, fun _ _ => .error "."⟩

/-- Cache entry of the C9 witness. -/
def ciW : ChatInfo := ⟨5, "title", "group", none, 50⟩

/-- C9 witness: a get at time 100 on an entry fetched at time 50 with a
ttl of 300 is a hit: the cached entry is returned, the cache is unchanged
and no gateway call and no observer call is made. -/
theorem c9_cache_hit_miss_evict_witness :
    cacheGet [(5, ciW)] 5 = some ciW ∧ 100 - ciW.lastUpdated < 300 ∧
    get_chat_info gCacheW ⟨300, 100⟩ ([] : List ObsFn) 100 5 [(5, ciW)] =
      ⟨some ciW, [(5, ciW)], [], []⟩ := by
  refine ⟨by decide, by decide, ?_⟩
  exact (c9_cache_hit_miss_evict gCacheW ⟨300, 100⟩ ([] : List ObsFn) 100 5 [(5, ciW)]).1
    ciW (by decide) (by decide)
